import Mathlib

/-!
Verification of the jigsaw-puzzle core of `picture-puzzle-ipad`.

Shallow embedding of the two puzzle engines of the repository:

* the deterministic piece generator and its seeded PRNG
  (`src/puzzle/generator.ts`: `mulberry32`, `makeEdge`, `generatePuzzle`);
* the canvas snap detector and board state
  (`src/puzzle/PuzzleCanvas.tsx`: `trySnap`, `checkAndPlaceGroup`,
  `getGroup`, `mergeGroups`, `buildBoard`, plus the save format of
  `src/lib/puzzleSave.ts`);
* the list-based snap engine (`src/lib/puzzle.ts`: `trySnap`,
  `trySnapToGuide`, `serializePieces`, `deserializePieces`) together with
  the guarded group move of `PuzzleBoard.tsx` / `PuzzleGame.tsx`.

JavaScript numbers are embedded as `ℚ` (all arithmetic used by the code is
exact: +, -, *, /, comparisons), 32-bit integer operations of the PRNG as
`ℕ` arithmetic taken `% 2^32`, and `Math.sqrt (dx*dx+dy*dy) < d` as the
equivalent sqrt-free test `0 ≤ d ∧ dx^2 + dy^2 < d^2`.
-/

attribute [local semireducible] Rat.mul Rat.inv Rat.add Rat.sub

namespace PicturePuzzle

/-- Edge type of one side of a piece: `'tab' | 'blank' | 'flat'`
(`flat` = outer border), from `src/puzzle/generator.ts`. -/
inductive EdgeType where
  | tab
  | blank
  | flat
deriving DecidableEq, Repr

/-- One edge descriptor (`EdgeDef` in `src/puzzle/generator.ts`):
knob type, randomised size, offset of the knob centre along the edge,
and a slight tilt. -/
structure EdgeDef where
  type : EdgeType
  size : ℚ
  offset : ℚ
  tilt : ℚ
deriving DecidableEq, Repr

/-- The four edge views of one piece; the source stores them as the array
`[top, right, bottom, left]`. -/
structure PieceEdges where
  top : EdgeDef
  right : EdgeDef
  bottom : EdgeDef
  left : EdgeDef
deriving DecidableEq, Repr

/-- `PieceDef` of `src/puzzle/generator.ts`.  The string id `` `${c}-${r}` ``
is embedded as the pair `(c, r)` (the source encoding is injective in
`(c, r)`). -/
structure PieceDef where
  col : ℕ
  row : ℕ
  edges : PieceEdges
  solvedX : ℚ
  solvedY : ℚ
  x : ℚ
  y : ℚ
  width : ℚ
  height : ℚ
  isPlaced : Bool
  isSelected : Bool
  id : ℕ × ℕ
  zIndex : ℤ
deriving DecidableEq, Repr

/-- `PuzzleLayout` of `src/puzzle/generator.ts`. -/
structure PuzzleLayout where
  cols : ℕ
  rows : ℕ
  pieceWidth : ℚ
  pieceHeight : ℚ
  pieces : List PieceDef
  boardWidth : ℚ
  boardHeight : ℚ
deriving DecidableEq, Repr

/-- `2^32`, the modulus of all 32-bit PRNG arithmetic. -/
def M32 : ℕ := 4294967296

/-- `Math.imul`: 32-bit multiplication. -/
def imul (a b : ℕ) : ℕ := (a * b) % M32

/-- One step of `mulberry32` (`src/puzzle/generator.ts` lines 54-62):
returns the uniform sample in `[0,1)` and the updated 32-bit state.
Signed int32 values of the source are represented by their residues
mod `2^32`; `+`, `^`, `|`, `Math.imul` and `>>>` agree on residues. -/
def mulberryNext (state : ℕ) : ℚ × ℕ :=
  let s := (state + 0x6d2b79f5) % M32
  let t0 := imul (s ^^^ (s >>> 15)) (1 ||| s)
  let t1 := ((t0 + imul (t0 ^^^ (t0 >>> 7)) (61 ||| t0)) % M32) ^^^ t0
  let out := t1 ^^^ (t1 >>> 14)
  ((out : ℚ) / (M32 : ℚ), s)

/-- The flat edge `{ type: 'flat', size: 1, offset: 0.5, tilt: 0 }`. -/
def flatEdge : EdgeDef := ⟨EdgeType.flat, 1, 1/2, 0⟩

/-- One loop iteration of the edge tables of `generatePuzzle`: the source
first draws `isTab = rng() > 0.5`, then calls `makeEdge(rng, isFlat, isTab)`
which draws `size`, `offset`, `tilt` only for non-flat edges. -/
def makeEdgeStep (st : ℕ) (isFlat : Bool) : EdgeDef × ℕ :=
  let u := mulberryNext st
  let isTab : Bool := decide ((1 : ℚ)/2 < u.1)
  if isFlat then (flatEdge, u.2)
  else
    let a := mulberryNext u.2
    let b := mulberryNext a.2
    let c := mulberryNext b.2
    ({ type := if isTab then EdgeType.tab else EdgeType.blank
     , size := 85/100 + a.1 * (25/100)
     , offset := 36/100 + b.1 * (28/100)
     , tilt := (c.1 - 1/2) * (12/100) }, c.2)

/-- Inner `for c` loop of an edge-table row: builds `n` edges starting at
index `i`, threading the PRNG state left to right. -/
def buildEdgeRow : ℕ → (ℕ → Bool) → ℕ → ℕ → List EdgeDef × ℕ
  | st, _, _, 0 => ([], st)
  | st, flatAt, i, n + 1 =>
    let e := makeEdgeStep st (flatAt i)
    let rest := buildEdgeRow e.2 flatAt (i + 1) n
    (e.1 :: rest.1, rest.2)

/-- Outer `for r` loop of an edge table: `n` rows of `rowLen` edges each,
row `r` flat at column `c` iff `flatAt r c`. -/
def buildEdgeTable : ℕ → (ℕ → ℕ → Bool) → ℕ → ℕ → ℕ → List (List EdgeDef) × ℕ
  | st, _, _, _, 0 => ([], st)
  | st, flatAt, rowLen, r, n + 1 =>
    let row := buildEdgeRow st (flatAt r) 0 rowLen
    let rest := buildEdgeTable row.2 flatAt rowLen (r + 1) n
    (row.1 :: rest.1, rest.2)

/-- Array access `table[r][c]` (always in range in the source). -/
def edgeAt (table : List (List EdgeDef)) (r c : ℕ) : EdgeDef :=
  ((table.get? r).bind fun row => row.get? c).getD flatEdge

/-- `invert` on edge types: the bottom/left derivation of `generatePuzzle`
maps `'tab' ↦ 'blank'`, `'blank' ↦ 'tab'`, `'flat' ↦ 'flat'`. -/
def invertType : EdgeType → EdgeType
  | EdgeType.tab => EdgeType.blank
  | EdgeType.blank => EdgeType.tab
  | EdgeType.flat => EdgeType.flat

/-- The mirrored opposite view of a shared edge, exactly the inline
derivation of `bottomEdge`/`leftEdge` in `generatePuzzle`
(lines 118-133): inverted type, `offset ↦ 1 - offset`, `tilt ↦ -tilt`,
size unchanged. -/
def invertEdgeView (e : EdgeDef) : EdgeDef :=
  { e with type := invertType e.type, offset := 1 - e.offset, tilt := -e.tilt }

/-- The piece record pushed for cell `(r, c)` in `generatePuzzle`. -/
def mkPiece (hE vE : List (List EdgeDef)) (pw ph : ℚ) (r c : ℕ) : PieceDef :=
  { col := c
  , row := r
  , edges :=
      { top := edgeAt hE r c
      , right := edgeAt vE r (c + 1)
      , bottom := invertEdgeView (edgeAt hE (r + 1) c)
      , left := invertEdgeView (edgeAt vE r c) }
  , solvedX := (c : ℚ) * pw
  , solvedY := (r : ℚ) * ph
  , x := 0
  , y := 0
  , width := pw
  , height := ph
  , isPlaced := false
  , isSelected := false
  , id := (c, r)
  , zIndex := 0 }

/-- `generatePuzzle(imageWidth, imageHeight, cols, rows, seed)` of
`src/puzzle/generator.ts` lines 74-164: seeded PRNG, horizontal table of
`rows+1` rows by `cols` edges (flat on `r = 0` and `r = rows`), vertical
table of `rows` rows by `cols+1` edges (flat on `c = 0` and `c = cols`),
then one piece per grid cell, row major. -/
def generatePuzzle (imageWidth imageHeight : ℚ) (cols rows : ℕ) (seed : ℕ) : PuzzleLayout :=
  let st0 := seed % M32
  let pieceWidth := imageWidth / (cols : ℚ)
  let pieceHeight := imageHeight / (rows : ℚ)
  let hE := buildEdgeTable st0 (fun r _ => r == 0 || r == rows) cols 0 (rows + 1)
  let vE := buildEdgeTable hE.2 (fun _ c => c == 0 || c == cols) (cols + 1) 0 rows
  { cols := cols
  , rows := rows
  , pieceWidth := pieceWidth
  , pieceHeight := pieceHeight
  , pieces :=
      (List.range rows).flatMap fun r =>
        (List.range cols).map fun c => mkPiece hE.1 vE.1 pieceWidth pieceHeight r c
  , boardWidth := imageWidth
  , boardHeight := imageHeight }

/-- The complementary-edge relation of the specification: `a` is the
opposite-direction view of the shared edge whose canonical view is `b`. -/
def Complementary (a b : EdgeDef) : Prop :=
  a.type = invertType b.type ∧ a.offset = 1 - b.offset ∧ a.tilt = -b.tilt ∧ a.size = b.size

/-- One of the two views is a tab and the other a blank. -/
def TabBlankPair (a b : EdgeDef) : Prop :=
  (a.type = EdgeType.tab ∧ b.type = EdgeType.blank) ∨
  (a.type = EdgeType.blank ∧ b.type = EdgeType.tab)

theorem complementary_invertEdgeView (e : EdgeDef) : Complementary (invertEdgeView e) e := by
  refine ⟨rfl, rfl, rfl, rfl⟩

theorem buildEdgeRow_get {n : ℕ} :
    ∀ (st i k : ℕ) (flatAt : ℕ → Bool), k < n →
      ∃ st', (buildEdgeRow st flatAt i n).1.get? k = some (makeEdgeStep st' (flatAt (i + k))).1 := by
  induction n with
  | zero => intro st i k flatAt hk; omega
  | succ m ih =>
    intro st i k flatAt hk
    cases k with
    | zero => exact ⟨st, rfl⟩
    | succ k' =>
      obtain ⟨st', hst'⟩ := ih (makeEdgeStep st (flatAt i)).2 (i + 1) k' flatAt (by omega)
      refine ⟨st', ?_⟩
      simpa [buildEdgeRow, Nat.add_assoc, Nat.add_comm 1 k'] using hst'

theorem buildEdgeTable_get {n : ℕ} :
    ∀ (st r0 r rowLen : ℕ) (flatAt : ℕ → ℕ → Bool), r < n →
      ∃ st', (buildEdgeTable st flatAt rowLen r0 n).1.get? r
        = some (buildEdgeRow st' (flatAt (r0 + r)) 0 rowLen).1 := by
  induction n with
  | zero => intro st r0 r rowLen flatAt hr; omega
  | succ m ih =>
    intro st r0 r rowLen flatAt hr
    cases r with
    | zero => exact ⟨st, rfl⟩
    | succ r' =>
      obtain ⟨st', hst'⟩ :=
        ih (buildEdgeRow st (flatAt r0) 0 rowLen).2 (r0 + 1) r' rowLen flatAt (by omega)
      refine ⟨st', ?_⟩
      simpa [buildEdgeTable, Nat.add_assoc, Nat.add_comm 1 r'] using hst'

/-- The horizontal edge table `hEdges` built by `generatePuzzle`. -/
def hTable (cols rows seed : ℕ) : List (List EdgeDef) :=
  (buildEdgeTable (seed % M32) (fun r _ => r == 0 || r == rows) cols 0 (rows + 1)).1

/-- PRNG state after building `hEdges`, fed into `vEdges`. -/
def hTableState (cols rows seed : ℕ) : ℕ :=
  (buildEdgeTable (seed % M32) (fun r _ => r == 0 || r == rows) cols 0 (rows + 1)).2

/-- The vertical edge table `vEdges` built by `generatePuzzle`. -/
def vTable (cols rows seed : ℕ) : List (List EdgeDef) :=
  (buildEdgeTable (hTableState cols rows seed) (fun _ c => c == 0 || c == cols) (cols + 1) 0 rows).1

theorem generatePuzzle_pieces_eq (w h : ℚ) (cols rows seed : ℕ) :
    (generatePuzzle w h cols rows seed).pieces =
      (List.range rows).flatMap fun r =>
        (List.range cols).map fun c =>
          mkPiece (hTable cols rows seed) (vTable cols rows seed)
            (w / (cols : ℚ)) (h / (rows : ℚ)) r c := rfl

theorem generatePuzzle_mem_pieces {w h : ℚ} {cols rows seed : ℕ} {p : PieceDef} :
    p ∈ (generatePuzzle w h cols rows seed).pieces ↔
      ∃ r c, r < rows ∧ c < cols ∧
        p = mkPiece (hTable cols rows seed) (vTable cols rows seed)
              (w / (cols : ℚ)) (h / (rows : ℚ)) r c := by
  constructor
  · intro hp
    simp only [generatePuzzle_pieces_eq, List.mem_flatMap, List.mem_map, List.mem_range] at hp
    obtain ⟨r, hr, c, hc, hmk⟩ := hp
    exact ⟨r, c, hr, hc, hmk.symm⟩
  · rintro ⟨r, c, hr, hc, rfl⟩
    simp only [generatePuzzle_pieces_eq, List.mem_flatMap, List.mem_map, List.mem_range]
    exact ⟨r, hr, c, hc, rfl⟩

theorem makeEdgeStep_type_not_flat (st : ℕ) :
    (makeEdgeStep st false).1.type = EdgeType.tab ∨ (makeEdgeStep st false).1.type = EdgeType.blank := by
  simp only [makeEdgeStep]
  by_cases h : (1 : ℚ)/2 < (mulberryNext st).1
  · left; simp [h]; linarith
  · right; simp [h]; linarith [not_lt.mp h]

theorem edgeAt_table_eq {n rowLen : ℕ} {st : ℕ} {flatAt : ℕ → ℕ → Bool} {r c : ℕ}
    (hr : r < n) (hc : c < rowLen) :
    ∃ st', edgeAt (buildEdgeTable st flatAt rowLen 0 n).1 r c
      = (makeEdgeStep st' (flatAt r c)).1 := by
  obtain ⟨st1, hrow⟩ := buildEdgeTable_get st 0 r rowLen flatAt hr
  obtain ⟨st2, hcell⟩ := buildEdgeRow_get st1 0 c (flatAt (0 + r)) hc
  refine ⟨st2, ?_⟩
  simp only [edgeAt, Nat.zero_add] at *
  rw [hrow]
  simp only [Option.some_bind, hcell, Option.getD_some]

theorem tabBlankPair_invert {e : EdgeDef}
    (h : e.type = EdgeType.tab ∨ e.type = EdgeType.blank) :
    TabBlankPair (invertEdgeView e) e := by
  rcases h with h | h
  · right; exact ⟨by simp [invertEdgeView, h, invertType], h⟩
  · left; exact ⟨by simp [invertEdgeView, h, invertType], h⟩

/-- C1: in the layout returned by `generatePuzzle`, the two views of every
interior shared grid line are complementary: for vertically adjacent
pieces, the upper piece's bottom edge is the inverted/mirrored view
(inverted type, `1 - offset`, negated tilt, equal size) of the lower
piece's top edge, and one view is a tab while the other is a blank; for
horizontally adjacent pieces, the right piece's left edge is likewise the
inverted/mirrored view of the left piece's right edge. -/
theorem generatePuzzle_complementary_edges
    (w h : ℚ) (cols rows seed : ℕ) (p q : PieceDef)
    (hp : p ∈ (generatePuzzle w h cols rows seed).pieces)
    (hq : q ∈ (generatePuzzle w h cols rows seed).pieces) :
    (q.row = p.row + 1 → q.col = p.col →
        Complementary p.edges.bottom q.edges.top ∧ TabBlankPair p.edges.bottom q.edges.top)
  ∧ (q.col = p.col + 1 → q.row = p.row →
        Complementary q.edges.left p.edges.right ∧ TabBlankPair q.edges.left p.edges.right) := by
  rw [generatePuzzle_mem_pieces] at hp hq
  obtain ⟨r, c, hr, hc, rfl⟩ := hp
  obtain ⟨r', c', hr', hc', rfl⟩ := hq
  simp only [mkPiece] at *
  constructor
  · intro hrow hcol
    subst hrow; subst hcol
    refine ⟨complementary_invertEdgeView _, ?_⟩
    obtain ⟨st', hst'⟩ := @edgeAt_table_eq _ _ (seed % M32)
      (fun r _ => r == 0 || r == rows) _ _ (show r + 1 < rows + 1 by omega) hc
    have hflat : ((r + 1 : ℕ) == 0 || (r + 1 : ℕ) == rows) = false := by
      simp only [Bool.or_eq_false_iff, beq_eq_false_iff_ne, ne_eq]
      omega
    rw [show hTable cols rows seed
          = (buildEdgeTable (seed % M32) (fun r _ => r == 0 || r == rows) cols 0 (rows + 1)).1
        from rfl, hst', hflat]
    exact tabBlankPair_invert (makeEdgeStep_type_not_flat st')
  · intro hcol hrow
    subst hrow; subst hcol
    refine ⟨complementary_invertEdgeView _, ?_⟩
    obtain ⟨st', hst'⟩ := @edgeAt_table_eq _ _ (hTableState cols rows seed)
      (fun _ c => c == 0 || c == cols) _ _ hr (show c + 1 < cols + 1 by omega)
    have hflat : ((c + 1 : ℕ) == 0 || (c + 1 : ℕ) == cols) = false := by
      simp only [Bool.or_eq_false_iff, beq_eq_false_iff_ne, ne_eq]
      omega
    rw [show vTable cols rows seed
          = (buildEdgeTable (hTableState cols rows seed)
              (fun _ c => c == 0 || c == cols) (cols + 1) 0 rows).1 from rfl, hst', hflat]
    exact tabBlankPair_invert (makeEdgeStep_type_not_flat st')

/-- Witness for C1: the complementary-edge invariant evaluated on the
concrete layout `generatePuzzle 10 10 2 2 3`, pieces `(0,0)` and `(1,0)`. -/
theorem generatePuzzle_complementary_edges_witness :
    Complementary
      (((generatePuzzle 10 10 2 2 3).pieces.getD 0 (mkPiece [] [] 0 0 0 0)).edges.bottom)
      (((generatePuzzle 10 10 2 2 3).pieces.getD 2 (mkPiece [] [] 0 0 0 0)).edges.top)
    ∧ TabBlankPair
      (((generatePuzzle 10 10 2 2 3).pieces.getD 0 (mkPiece [] [] 0 0 0 0)).edges.bottom)
      (((generatePuzzle 10 10 2 2 3).pieces.getD 2 (mkPiece [] [] 0 0 0 0)).edges.top) :=
  (generatePuzzle_complementary_edges 10 10 2 2 3
      ((generatePuzzle 10 10 2 2 3).pieces.getD 0 (mkPiece [] [] 0 0 0 0))
      ((generatePuzzle 10 10 2 2 3).pieces.getD 2 (mkPiece [] [] 0 0 0 0))
      (by decide) (by decide)).1 (by decide) (by decide)

/-- C2: `generatePuzzle` is deterministic in its five arguments — two runs
with identical `(imageWidth, imageHeight, cols, rows, seed)` produce equal
layouts (edge descriptors, solved positions, ids, everything); the
embedding threads the `mulberry32` state explicitly, so there is no
ambient state or call-order dependence.  In addition, the edge descriptors
and ids depend only on `(cols, rows, seed)`, not on the image dimensions:
a persisted seed plus grid size regenerates the identical edge set on a
board of any size. -/
theorem generatePuzzle_deterministic (w h w2 h2 : ℚ) (cols rows seed : ℕ) :
    generatePuzzle w h cols rows seed = generatePuzzle w h cols rows seed ∧
      (generatePuzzle w2 h2 cols rows seed).pieces.map (fun p => (p.edges, p.id))
        = (generatePuzzle w h cols rows seed).pieces.map (fun p => (p.edges, p.id)) := by
  refine ⟨rfl, ?_⟩
  simp only [generatePuzzle_pieces_eq, List.map_flatMap, List.map_map]
  rfl

/-- C7 counterexample: called with the invalid parameter `cols = 0`,
`generatePuzzle` does not fail fast — it returns an ordinary
`PuzzleLayout` value whose pieces list is empty (a degenerate layout). -/
theorem generatePuzzle_zero_cols_returns_normally :
    (generatePuzzle 100 100 0 5 42).pieces = [] ∧
      (generatePuzzle 100 100 0 5 42).rows = 5 ∧
      (generatePuzzle 100 100 0 5 42).boardWidth = 100 := ⟨rfl, rfl, rfl⟩

/-- C7 amended: `generatePuzzle` performs no parameter validation; it is
total and returns a layout with `rows * cols` pieces for every input, so
for `cols = 0` or `rows = 0` it returns a degenerate layout with no
pieces instead of signalling an error. -/
theorem flatMap_map_range_length {α : Type} (f : ℕ → ℕ → α) (cols : ℕ) :
    ∀ l : List ℕ, (l.flatMap fun r => (List.range cols).map (f r)).length = l.length * cols := by
  intro l
  induction l with
  | nil => simp
  | cons a t ih => simp [ih, Nat.succ_mul, Nat.add_comm]

theorem generatePuzzle_total_pieces_length (w h : ℚ) (cols rows seed : ℕ) :
    (generatePuzzle w h cols rows seed).pieces.length = rows * cols := by
  rw [generatePuzzle_pieces_eq, flatMap_map_range_length]
  simp

/-- Piece/group identifier (the string ids of the source, embedded
injectively as `(col, row)` pairs). -/
abbrev PId := ℕ × ℕ

/-- The `BoardState` of `PuzzleCanvas.tsx`: board rectangle (the
pre-rendered image is render-only and omitted), the pieces, the `groups`
map `piece.id ↦ group id`, and the contents of `trayIdsRef`. -/
structure CanvasBoard where
  boardX : ℚ
  boardY : ℚ
  boardW : ℚ
  boardH : ℚ
  pieces : List PieceDef
  groups : List (PId × PId)
  tray : List PId
deriving DecidableEq, Repr

/-- `SNAP_FRACTION = 0.28` of `PuzzleCanvas.tsx`. -/
def SNAP_FRACTION : ℚ := 28/100

/-- `snapDist(piece)`: snap tolerance as a fraction of the smaller piece
dimension. -/
def snapDist (p : PieceDef) : ℚ := min p.width p.height * SNAP_FRACTION

/-- `Math.sqrt (dx*dx + dy*dy) < d` expressed without square roots;
equivalent for every `d` because the square root is nonnegative. -/
def distLt (dx dy d : ℚ) : Bool := decide (0 ≤ d ∧ dx * dx + dy * dy < d * d)

/-- Membership of an id in an id list. -/
def hasId (l : List PId) (i : PId) : Bool := l.any fun j => decide (j = i)

/-- `board.groups.get(pid)`. -/
def lookupGroup (g : List (PId × PId)) (pid : PId) : Option PId :=
  (g.find? fun e => decide (e.1 = pid)).map fun e => e.2

/-- Find the piece record with the given id. -/
def findPiece (b : CanvasBoard) (pid : PId) : Option PieceDef :=
  b.pieces.find? fun p => decide (p.id = pid)

/-- `getGroup(board, piece)` of `PuzzleCanvas.tsx` (member ids): all
pieces mapping to the same group id, or the singleton if the map has no
entry. -/
def getGroupIds (b : CanvasBoard) (pid : PId) : List PId :=
  match lookupGroup b.groups pid with
  | none => [pid]
  | some gid =>
    (b.pieces.filter fun p => decide (lookupGroup b.groups p.id = some gid)).map fun p => p.id

/-- `mergeGroups(board, pieceA, pieceB)`: every map entry holding B's
group id is rewritten to A's group id. -/
def mergeGroups (g : List (PId × PId)) (pidA pidB : PId) : List (PId × PId) :=
  let gidA := (lookupGroup g pidA).getD pidA
  let gidB := (lookupGroup g pidB).getD pidB
  if gidA = gidB then g
  else g.map fun e => if e.2 = gidB then (e.1, gidA) else e

/-- The per-piece update of `checkAndPlaceGroup`'s placing loop. -/
def placePiece (bX bY : ℚ) (gIds : List PId) (p : PieceDef) : PieceDef :=
  if hasId gIds p.id then
    { p with x := bX + p.solvedX, y := bY + p.solvedY,
             isPlaced := true, isSelected := false, zIndex := -1 }
  else p

/-- `checkAndPlaceGroup(board, group)`: if every member is within
`snapDist * 1.5` of its solved position, snap all members exactly onto
their solved positions and mark them placed. -/
def checkAndPlaceGroup (b : CanvasBoard) (gIds : List PId) : CanvasBoard :=
  let allAligned := b.pieces.all fun p =>
    !(hasId gIds p.id) ||
      distLt (p.x - (b.boardX + p.solvedX)) (p.y - (b.boardY + p.solvedY)) (snapDist p * (3/2))
  if allAligned then
    { b with pieces := b.pieces.map (placePiece b.boardX b.boardY gIds) }
  else b

/-- One entry of the `neighbours` table inside `trySnap`. -/
structure NbOffset where
  dc : ℤ
  dr : ℤ
  dx : ℚ
  dy : ℚ

/-- The four neighbour directions checked by `trySnap`, in source order. -/
def neighbourOffsets (p : PieceDef) : List NbOffset :=
  [ ⟨1, 0, p.width, 0⟩, ⟨-1, 0, -p.width, 0⟩, ⟨0, 1, 0, p.height⟩, ⟨0, -1, 0, -p.height⟩ ]

/-- Candidate filter of the neighbour-snap loop: on the board (not in the
tray), not in the dragged group, not currently held (`isSelected`). -/
def candidateOk (b : CanvasBoard) (dragIds : List PId) (cand : PieceDef) : Bool :=
  !(hasId b.tray cand.id) && !(hasId dragIds cand.id) && !cand.isSelected

/-- The neighbour scan of `trySnap` (`PuzzleCanvas.tsx` lines 503-549):
the first candidate piece (in board order) and direction for which the
dragged piece is within tolerance of the position exactly one piece
width/height from the candidate; returns the candidate and that expected
position. -/
def findNeighbourSnap (b : CanvasBoard) (piece : PieceDef) (dragIds : List PId) (dist : ℚ) :
    Option (PieceDef × ℚ × ℚ) :=
  b.pieces.findSome? fun cand =>
    if candidateOk b dragIds cand then
      (neighbourOffsets piece).findSome? fun nb =>
        if (piece.col : ℤ) + nb.dc = (cand.col : ℤ) ∧ (piece.row : ℤ) + nb.dr = (cand.row : ℤ) then
          let ex := cand.x - nb.dx
          let ey := cand.y - nb.dy
          if distLt (piece.x - ex) (piece.y - ey) dist then some (cand, ex, ey) else none
        else none
    else none

/-- The per-piece update of the dragged-group translation loop. -/
def translatePiece (dragIds : List PId) (ox oy : ℚ) (p : PieceDef) : PieceDef :=
  if hasId dragIds p.id then { p with x := p.x + ox, y := p.y + oy, isSelected := false } else p

/-- Rigid translation of the dragged group (the
`for (const gp of dragGroup)` loops of `trySnap`). -/
def translateDragGroup (pieces : List PieceDef) (dragIds : List PId) (ox oy : ℚ) : List PieceDef :=
  pieces.map (translatePiece dragIds ox oy)

/-- Result of one `trySnap` invocation: the updated board, the returned
boolean, and whether `onComplete` was fired during the call. -/
structure SnapOutcome where
  board : CanvasBoard
  snapped : Bool
  completeFired : Bool
deriving DecidableEq, Repr

/-- Number of placed pieces (`board.pieces.filter(p => p.isPlaced).length`). -/
def placedCount (pieces : List PieceDef) : ℕ := (pieces.filter fun p => p.isPlaced).length

/-- Application of a found neighbour snap: translate the whole dragged
group so the released piece lands at the expected position, merge the two
groups, run `checkAndPlaceGroup` on the merged group, and fire
`onComplete` iff every piece is now placed. -/
def applyNeighbourSnap (b : CanvasBoard) (piece : PieceDef) (dragIds : List PId)
    (cand : PieceDef) (ex ey : ℚ) : SnapOutcome :=
  let b1 := { b with pieces := translateDragGroup b.pieces dragIds (ex - piece.x) (ey - piece.y) }
  let b2 := { b1 with groups := mergeGroups b1.groups piece.id cand.id }
  let b3 := checkAndPlaceGroup b2 (getGroupIds b2 piece.id)
  { board := b3, snapped := true
  , completeFired := decide (placedCount b3.pieces = b3.pieces.length) }

/-- Phase 2 of `trySnap`: the classic solved-position snap, attempted only
when no neighbour snap occurred. -/
def applySolvedSnap (b : CanvasBoard) (piece : PieceDef) (dragIds : List PId) (dist : ℚ) :
    SnapOutcome :=
  let tx := b.boardX + piece.solvedX
  let ty := b.boardY + piece.solvedY
  if distLt (piece.x - tx) (piece.y - ty) dist then
    let b1 := { b with pieces := translateDragGroup b.pieces dragIds (tx - piece.x) (ty - piece.y) }
    let b2 := checkAndPlaceGroup b1 (getGroupIds b1 piece.id)
    { board := b2, snapped := true
    , completeFired := decide (placedCount b2.pieces = b2.pieces.length) }
  else { board := b, snapped := false, completeFired := false }

/-- `trySnap(piece)` of `PuzzleCanvas.tsx` lines 485-584, invoked on drag
release with the id of the held piece: the neighbour scan runs first and
returns early on success; otherwise the solved-position snap is
attempted. -/
def trySnapC (b : CanvasBoard) (pid : PId) : SnapOutcome :=
  match findPiece b pid with
  | none => { board := b, snapped := false, completeFired := false }
  | some piece =>
    let dist := snapDist piece
    let dragIds := getGroupIds b pid
    match findNeighbourSnap b piece dragIds dist with
    | some (cand, ex, ey) => applyNeighbourSnap b piece dragIds cand ex ey
    | none => applySolvedSnap b piece dragIds dist

/-- Candidate filter of `onCanvasPointerDown` (`PuzzleCanvas.tsx` lines
780-784): a piece can be picked up only if it is not in the tray and not
placed. -/
def canPick (b : CanvasBoard) (p : PieceDef) : Bool :=
  !(hasId b.tray p.id) && !p.isPlaced

/-- Number of distinct group ids among the board's pieces. -/
def groupCount (b : CanvasBoard) : ℕ :=
  ((b.pieces.map fun p => lookupGroup b.groups p.id).dedup).length

/-- `SavedPieceState` of `src/lib/puzzleSave.ts`: id, fractional
coordinates, placed flag, paint order — and no group information. -/
structure SavedPieceState where
  id : PId
  fx : ℚ
  fy : ℚ
  isPlaced : Bool
  zIndex : ℤ
deriving DecidableEq, Repr

/-- The `piecesState` projection of `savePuzzle` (`src/lib/puzzleSave.ts`):
`fx = (x - boardX) / boardW`, `fy = (y - boardY) / boardH`. -/
def canvasSave (b : CanvasBoard) : List SavedPieceState :=
  b.pieces.map fun p =>
    { id := p.id
    , fx := (p.x - b.boardX) / b.boardW
    , fy := (p.y - b.boardY) / b.boardH
    , isPlaced := p.isPlaced
    , zIndex := p.zIndex }

/-- The board construction of `buildBoard` (`PuzzleCanvas.tsx` lines
176-265): regenerate the layout from `(boardW, boardH, cols, rows, seed)`,
apply saved fractional positions (`x = boardX + fx * boardW`) when
restoring, and give every piece its own singleton group. -/
def buildBoardRestore (boardX boardY boardW boardH : ℚ) (cols rows seed : ℕ)
    (saved : List SavedPieceState) (trayIds : List PId) : CanvasBoard :=
  let layout := generatePuzzle boardW boardH cols rows seed
  let isRestoring : Bool := decide (saved ≠ [])
  let pieces := layout.pieces.map fun p =>
    match saved.find? fun s => decide (s.id = p.id) with
    | some s =>
      if isRestoring then
        { p with x := boardX + s.fx * boardW, y := boardY + s.fy * boardH,
                 isPlaced := s.isPlaced, zIndex := s.zIndex }
      else { p with x := boardX + p.solvedX, y := boardY + p.solvedY, isPlaced := false }
    | none => { p with x := boardX + p.solvedX, y := boardY + p.solvedY, isPlaced := false }
  { boardX := boardX, boardY := boardY, boardW := boardW, boardH := boardH
  , pieces := pieces
  , groups := pieces.map fun p => (p.id, p.id)
  , tray := trayIds }

theorem hasId_eq_true_iff {l : List PId} {i : PId} : hasId l i = true ↔ i ∈ l := by
  unfold hasId
  rw [List.any_eq_true]
  constructor
  · rintro ⟨j, hj, hd⟩
    have hji : j = i := of_decide_eq_true hd
    rwa [hji] at hj
  · intro h
    exact ⟨i, h, by simp⟩

theorem findPiece_eq_some {b : CanvasBoard} {pid : PId} {piece : PieceDef}
    (h : findPiece b pid = some piece) : piece ∈ b.pieces ∧ piece.id = pid := by
  refine ⟨List.mem_of_find?_eq_some h, ?_⟩
  have := List.find?_some h
  simpa using this

theorem mem_getGroupIds_self {b : CanvasBoard} {pid : PId} {piece : PieceDef}
    (h : findPiece b pid = some piece) : pid ∈ getGroupIds b pid := by
  obtain ⟨hmem, hid⟩ := findPiece_eq_some h
  unfold getGroupIds
  cases hg : lookupGroup b.groups pid with
  | none => simp
  | some gid =>
    simp only [List.mem_map]
    refine ⟨piece, ?_, hid⟩
    rw [List.mem_filter]
    exact ⟨hmem, by simp [hid, hg]⟩

theorem find?_id_map (l : List PieceDef) (f : PieceDef → PieceDef)
    (hf : ∀ p, (f p).id = p.id) (pid : PId) :
    (l.map f).find? (fun p => decide (p.id = pid))
      = (l.find? fun p => decide (p.id = pid)).map f := by
  rw [List.find?_map]
  have hcomp : ((fun p => decide (p.id = pid)) ∘ f) = fun p => decide (p.id = pid) := by
    funext p
    simp [Function.comp, hf]
  rw [hcomp]

theorem translatePiece_id (dragIds : List PId) (ox oy : ℚ) (p : PieceDef) :
    (translatePiece dragIds ox oy p).id = p.id := by
  unfold translatePiece
  by_cases h : hasId dragIds p.id <;> simp [h]

theorem placePiece_id (bX bY : ℚ) (gIds : List PId) (p : PieceDef) :
    (placePiece bX bY gIds p).id = p.id := by
  unfold placePiece
  by_cases h : hasId gIds p.id <;> simp [h]

theorem findPiece_translate (b : CanvasBoard) (ids : List PId) (ox oy : ℚ) (pid : PId) :
    findPiece { b with pieces := translateDragGroup b.pieces ids ox oy } pid
      = (findPiece b pid).map (translatePiece ids ox oy) :=
  find?_id_map b.pieces (translatePiece ids ox oy) (translatePiece_id ids ox oy) pid

theorem findPiece_place (b : CanvasBoard) (gIds : List PId) (pid : PId) :
    findPiece { b with pieces := b.pieces.map (placePiece b.boardX b.boardY gIds) } pid
      = (findPiece b pid).map (placePiece b.boardX b.boardY gIds) :=
  find?_id_map b.pieces (placePiece b.boardX b.boardY gIds) (placePiece_id _ _ gIds) pid

theorem findPiece_checkAndPlace_fixed (b : CanvasBoard) (gIds : List PId) (pid : PId)
    (q : PieceDef) (hq : findPiece b pid = some q)
    (hx : q.x = b.boardX + q.solvedX) (hy : q.y = b.boardY + q.solvedY) :
    ∃ q', findPiece (checkAndPlaceGroup b gIds) pid = some q'
      ∧ q'.x = b.boardX + q.solvedX ∧ q'.y = b.boardY + q.solvedY := by
  unfold checkAndPlaceGroup
  by_cases hal : (b.pieces.all fun p =>
      !(hasId gIds p.id) ||
        distLt (p.x - (b.boardX + p.solvedX)) (p.y - (b.boardY + p.solvedY))
          (snapDist p * (3/2))) = true
  · rw [if_pos hal]
    refine ⟨placePiece b.boardX b.boardY gIds q, ?_, ?_, ?_⟩
    · rw [findPiece_place b gIds pid, hq]
      rfl
    · unfold placePiece
      by_cases hin : hasId gIds q.id = true
      · rw [if_pos hin]
      · rw [if_neg (by simpa using hin)]
        exact hx
    · unfold placePiece
      by_cases hin : hasId gIds q.id = true
      · rw [if_pos hin]
      · rw [if_neg (by simpa using hin)]
        exact hy
  · rw [if_neg hal]
    exact ⟨q, hq, hx, hy⟩

/-- C3: the snap detector of `PuzzleCanvas.tsx` evaluates its two snap
opportunities in a fixed order and takes the first that succeeds.  (1) If
the neighbour scan finds a within-tolerance candidate, `trySnap` is
exactly the neighbour-snap application (rigid translation of the whole
dragged group followed by a group union) and reports a snap; the found
candidate really is a grid neighbour on the board, outside the dragged
group, whose expected position (one piece width/height away) is within
tolerance.  (2) Only if the scan finds nothing is the solved-position
snap attempted: when the released piece is within tolerance of its solved
position the whole group is translated so the piece lands exactly on
`(boardX + solvedX, boardY + solvedY)`, and otherwise the call leaves the
board unchanged and reports no snap. -/
theorem trySnapC_order (b : CanvasBoard) (pid : PId) (piece : PieceDef)
    (hp : findPiece b pid = some piece) :
    (∀ cand ex ey,
        findNeighbourSnap b piece (getGroupIds b pid) (snapDist piece) = some (cand, ex, ey) →
        trySnapC b pid = applyNeighbourSnap b piece (getGroupIds b pid) cand ex ey
        ∧ (trySnapC b pid).snapped = true
        ∧ cand ∈ b.pieces ∧ candidateOk b (getGroupIds b pid) cand = true
        ∧ ∃ nb ∈ neighbourOffsets piece,
            (piece.col : ℤ) + nb.dc = (cand.col : ℤ) ∧ (piece.row : ℤ) + nb.dr = (cand.row : ℤ)
            ∧ ex = cand.x - nb.dx ∧ ey = cand.y - nb.dy
            ∧ distLt (piece.x - ex) (piece.y - ey) (snapDist piece) = true)
    ∧ (findNeighbourSnap b piece (getGroupIds b pid) (snapDist piece) = none →
        trySnapC b pid = applySolvedSnap b piece (getGroupIds b pid) (snapDist piece)
        ∧ (distLt (piece.x - (b.boardX + piece.solvedX))
              (piece.y - (b.boardY + piece.solvedY)) (snapDist piece) = true →
            ∃ q, findPiece (trySnapC b pid).board pid = some q
              ∧ q.x = b.boardX + piece.solvedX ∧ q.y = b.boardY + piece.solvedY
              ∧ (trySnapC b pid).snapped = true)
        ∧ (distLt (piece.x - (b.boardX + piece.solvedX))
              (piece.y - (b.boardY + piece.solvedY)) (snapDist piece) = false →
            trySnapC b pid = ⟨b, false, false⟩)) := by
  have hpid : piece.id = pid := (findPiece_eq_some hp).2
  constructor
  · intro cand ex ey hfind
    have horder : trySnapC b pid = applyNeighbourSnap b piece (getGroupIds b pid) cand ex ey := by
      simp only [trySnapC, hp, hfind]
    refine ⟨horder, by rw [horder]; rfl, ?_⟩
    obtain ⟨cand', hmem, hc'⟩ := List.exists_of_findSome?_eq_some hfind
    by_cases hok : candidateOk b (getGroupIds b pid) cand' = true
    · rw [if_pos hok] at hc'
      obtain ⟨nb, hnb, hnbeq⟩ := List.exists_of_findSome?_eq_some hc'
      by_cases hadj : (piece.col : ℤ) + nb.dc = (cand'.col : ℤ) ∧ (piece.row : ℤ) + nb.dr = (cand'.row : ℤ)
      · rw [if_pos hadj] at hnbeq
        simp only at hnbeq
        by_cases hd : distLt (piece.x - (cand'.x - nb.dx)) (piece.y - (cand'.y - nb.dy)) (snapDist piece) = true
        · rw [if_pos hd] at hnbeq
          obtain ⟨h1, h2, h3⟩ : cand' = cand ∧ cand'.x - nb.dx = ex ∧ cand'.y - nb.dy = ey := by
            have hinj := Option.some.inj hnbeq
            exact ⟨congrArg Prod.fst hinj, congrArg (fun t => t.2.1) hinj,
              congrArg (fun t => t.2.2) hinj⟩
          subst h1
          refine ⟨hmem, hok, nb, hnb, hadj.1, hadj.2, h2.symm, h3.symm, ?_⟩
          rw [← h2, ← h3]
          exact hd
        · rw [if_neg (by simpa using hd)] at hnbeq
          exact absurd hnbeq (by simp)
      · rw [if_neg hadj] at hnbeq
        exact absurd hnbeq (by simp)
    · rw [if_neg hok] at hc'
      exact absurd hc' (by simp)
  · intro hnone
    have horder : trySnapC b pid = applySolvedSnap b piece (getGroupIds b pid) (snapDist piece) := by
      simp only [trySnapC, hp, hnone]
    refine ⟨horder, ?_, ?_⟩
    · intro hdist
      rw [horder]
      have hmemIds : pid ∈ getGroupIds b pid := mem_getGroupIds_self hp
      simp only [applySolvedSnap, hdist, if_true]
      have hb1 := findPiece_translate b (getGroupIds b pid)
        (b.boardX + piece.solvedX - piece.x) (b.boardY + piece.solvedY - piece.y) pid
      rw [hp] at hb1
      simp only [Option.map] at hb1
      have hfpiece : translatePiece (getGroupIds b pid)
          (b.boardX + piece.solvedX - piece.x) (b.boardY + piece.solvedY - piece.y) piece
          = { piece with x := piece.x + (b.boardX + piece.solvedX - piece.x),
                         y := piece.y + (b.boardY + piece.solvedY - piece.y),
                         isSelected := false } := by
        unfold translatePiece
        rw [hpid, if_pos (hasId_eq_true_iff.mpr hmemIds)]
      rw [hfpiece] at hb1
      obtain ⟨q', hq', hx', hy'⟩ := findPiece_checkAndPlace_fixed _ _ pid _ hb1
        (by show piece.x + (b.boardX + piece.solvedX - piece.x)
              = b.boardX + piece.solvedX; ring)
        (by show piece.y + (b.boardY + piece.solvedY - piece.y)
              = b.boardY + piece.solvedY; ring)
      exact ⟨q', hq', hx', hy', trivial⟩
    · intro hdist
      rw [horder]
      simp [applySolvedSnap, hdist]

/-- A single loose piece close to its solved position, used to evaluate
the snap detector on concrete data. -/
def c3Piece : PieceDef :=
  { col := 0, row := 0, edges := ⟨flatEdge, flatEdge, flatEdge, flatEdge⟩
  , solvedX := 0, solvedY := 0, x := 5, y := 3, width := 100, height := 100
  , isPlaced := false, isSelected := false, id := (0, 0), zIndex := 0 }

/-- A one-piece board holding `c3Piece`. -/
def c3Board : CanvasBoard :=
  { boardX := 0, boardY := 0, boardW := 100, boardH := 100
  , pieces := [c3Piece], groups := [((0, 0), (0, 0))], tray := [] }

/-- Witness for C3: on the concrete one-piece board the neighbour scan
finds nothing, the solved-position snap fires, and the piece lands exactly
on its solved position. -/
theorem trySnapC_order_witness :
    trySnapC c3Board (0, 0)
        = applySolvedSnap c3Board c3Piece (getGroupIds c3Board (0, 0)) (snapDist c3Piece)
      ∧ (trySnapC c3Board (0, 0)).snapped = true
      ∧ (findPiece (trySnapC c3Board (0, 0)).board (0, 0)).map (fun q => (q.x, q.y))
          = some (0, 0) := by
  have h := trySnapC_order c3Board (0, 0) c3Piece (by decide)
  have h2 := h.2 (by decide)
  obtain ⟨q, hq, hx, hy, hs⟩ := h2.2.1 (by decide)
  refine ⟨h2.1, hs, ?_⟩
  rw [hq]
  simp only [Option.map]
  rw [hx, hy]
  decide

/-- Count the placed pieces of a list versus its length. -/
theorem placedCount_eq_length_iff (l : List PieceDef) :
    placedCount l = l.length ↔ ∀ p ∈ l, p.isPlaced = true := by
  unfold placedCount
  rw [List.filter_length_eq_length]

/-- Every `trySnap` call either leaves the board unchanged reporting no
snap and no completion, or reports a snap and fires `onComplete` exactly
when every piece of the resulting board is placed. -/
theorem trySnapC_outcome (b : CanvasBoard) (pid : PId) :
    trySnapC b pid = ⟨b, false, false⟩ ∨
      ((trySnapC b pid).snapped = true ∧
        (trySnapC b pid).completeFired
          = decide (placedCount (trySnapC b pid).board.pieces
              = (trySnapC b pid).board.pieces.length)) := by
  cases hfp : findPiece b pid with
  | none =>
    left
    simp only [trySnapC, hfp]
  | some piece =>
    cases hfn : findNeighbourSnap b piece (getGroupIds b pid) (snapDist piece) with
    | some hit =>
      obtain ⟨cand, ex, ey⟩ := hit
      have he : trySnapC b pid = applyNeighbourSnap b piece (getGroupIds b pid) cand ex ey := by
        simp only [trySnapC, hfp, hfn]
      right
      rw [he]
      exact ⟨rfl, rfl⟩
    | none =>
      have he : trySnapC b pid = applySolvedSnap b piece (getGroupIds b pid) (snapDist piece) := by
        simp only [trySnapC, hfp, hfn]
      by_cases hd : distLt (piece.x - (b.boardX + piece.solvedX))
          (piece.y - (b.boardY + piece.solvedY)) (snapDist piece) = true
      · right
        rw [he]
        unfold applySolvedSnap
        rw [if_pos hd]
        exact ⟨rfl, rfl⟩
      · left
        rw [he]
        unfold applySolvedSnap
        rw [if_neg (by simpa using hd)]

/-- The four pieces of a 2-by-2 board: the top row `A, B` is placed and
already merged into one group, `D` is placed as a singleton group, and
`C` floats near its solved position as the dragged piece. -/
def c6Pieces : List PieceDef :=
  [ { col := 0, row := 0, edges := ⟨flatEdge, flatEdge, flatEdge, flatEdge⟩
    , solvedX := 0, solvedY := 0, x := 0, y := 0, width := 100, height := 100
    , isPlaced := true, isSelected := false, id := (0, 0), zIndex := -1 }
  , { col := 1, row := 0, edges := ⟨flatEdge, flatEdge, flatEdge, flatEdge⟩
    , solvedX := 100, solvedY := 0, x := 100, y := 0, width := 100, height := 100
    , isPlaced := true, isSelected := false, id := (1, 0), zIndex := -1 }
  , { col := 0, row := 1, edges := ⟨flatEdge, flatEdge, flatEdge, flatEdge⟩
    , solvedX := 0, solvedY := 100, x := 2, y := 101, width := 100, height := 100
    , isPlaced := false, isSelected := false, id := (0, 1), zIndex := 5 }
  , { col := 1, row := 1, edges := ⟨flatEdge, flatEdge, flatEdge, flatEdge⟩
    , solvedX := 100, solvedY := 100, x := 100, y := 100, width := 100, height := 100
    , isPlaced := true, isSelected := false, id := (1, 1), zIndex := -1 } ]

/-- The 2-by-2 board described at `c6Pieces`, with groups
`{A, B}, {C}, {D}`. -/
def c6Board : CanvasBoard :=
  { boardX := 0, boardY := 0, boardW := 200, boardH := 200
  , pieces := c6Pieces
  , groups := [((0, 0), (0, 0)), ((1, 0), (0, 0)), ((0, 1), (0, 1)), ((1, 1), (1, 1))]
  , tray := [] }

/-- C6 counterexample: releasing piece `C` on the concrete board
`c6Board` fires the completion signal even though the resulting board's
pieces are still partitioned into two groups (`{A, B, C}` and `{D}`) —
`onComplete` does not wait for a single spanning group root. -/
theorem trySnapC_completion_fired_with_two_groups :
    (trySnapC c6Board (0, 1)).completeFired = true
      ∧ groupCount (trySnapC c6Board (0, 1)).board = 2 := by
  constructor
  · decide
  · decide

/-- C6 amended: `onComplete` is fired exactly when a snap occurs and every
piece of the resulting board is placed — the group partition is not
consulted, so it can fire while the placed pieces still form several
groups; and once every piece is placed no piece passes the pick-up
filter, so no further snap (and hence no second firing) can occur. -/
theorem trySnapC_completion_amended (b : CanvasBoard) (pid : PId) :
    ((trySnapC b pid).completeFired = true ↔
      (trySnapC b pid).snapped = true
        ∧ ∀ p ∈ (trySnapC b pid).board.pieces, p.isPlaced = true)
    ∧ ((∀ p ∈ b.pieces, p.isPlaced = true) → ∀ p ∈ b.pieces, canPick b p = false) := by
  constructor
  · rcases trySnapC_outcome b pid with h | ⟨hsn, hcf⟩
    · rw [h]
      simp
    · rw [hcf, decide_eq_true_eq, placedCount_eq_length_iff, hsn]
      simp
  · intro hall p hp
    unfold canPick
    rw [hall p hp]
    simp

/-- A single placed piece, used for the completed-board witness. -/
def c6PlacedPiece : PieceDef :=
  { col := 0, row := 0, edges := ⟨flatEdge, flatEdge, flatEdge, flatEdge⟩
  , solvedX := 0, solvedY := 0, x := 0, y := 0, width := 100, height := 100
  , isPlaced := true, isSelected := false, id := (0, 0), zIndex := -1 }

/-- A one-piece board whose only piece is placed. -/
def c6FullBoard : CanvasBoard :=
  { boardX := 0, boardY := 0, boardW := 100, boardH := 100
  , pieces := [c6PlacedPiece]
  , groups := [((0, 0), (0, 0))], tray := [] }

/-- Witness for the amended C6: on a fully placed concrete board the
pick-up filter rejects the (placed) piece. -/
theorem trySnapC_completion_amended_witness :
    canPick c6FullBoard (c6FullBoard.pieces.getD 0 c3Piece) = false :=
  (trySnapC_completion_amended c6FullBoard (0, 0)).2 (by decide)
    (c6FullBoard.pieces.getD 0 c3Piece) (by decide)

/-- `PuzzlePiece` of `src/lib/puzzle.ts`: the list-based engine's piece
record.  `x`/`y` are `null` while the piece sits in the tray. -/
structure LPiece where
  id : ℕ
  row : ℕ
  col : ℕ
  imageDataUrl : String
  displayWidth : ℚ
  displayHeight : ℚ
  offsetX : ℚ
  offsetY : ℚ
  selected : Bool
  x : Option ℚ
  y : Option ℚ
  groupId : ℕ
  locked : Bool
deriving DecidableEq, Repr

/-- `PUZZLE_ORIGIN.x`. -/
def PUZZLE_ORIGIN_X : ℚ := 800

/-- `PUZZLE_ORIGIN.y`. -/
def PUZZLE_ORIGIN_Y : ℚ := 800

/-- `updated.some(p => p.groupId === gid && p.locked)`: the group counts
as locked when any member is locked. -/
def lockedGroup (st : List LPiece) (gid : ℕ) : Bool :=
  st.any fun p => decide (p.groupId = gid) && p.locked

/-- Both-locked merge of `trySnap`: rewrite the group id only. -/
def mergeIdPiece (fromGid toGid : ℕ) (p : LPiece) : LPiece :=
  if p.groupId = fromGid then { p with groupId := toGid } else p

/-- Merge of an unlocked group into a locked one: shift, relabel and lock
every incoming member. -/
def joinLockPiece (fromGid toGid : ℕ) (sx sy : ℚ) (p : LPiece) : LPiece :=
  if p.groupId = fromGid then
    { p with groupId := toGid, x := p.x.map (· + sx), y := p.y.map (· + sy), locked := true }
  else p

/-- Default merge of `trySnap`: move B's group into A's frame; members
become locked only when A's group was locked. -/
def joinPiece (fromGid toGid : ℕ) (sx sy : ℚ) (aLocked : Bool) (p : LPiece) : LPiece :=
  if p.groupId = fromGid then
    { p with groupId := toGid, x := p.x.map (· + sx), y := p.y.map (· + sy),
             locked := if aLocked then true else p.locked }
  else p

/-- Body of the pair scan of `trySnap` (`src/lib/puzzle.ts` lines
275-346) for one index pair `(i, j)`: both pieces on the board, distinct
groups, grid-adjacent, and within threshold of the ideal relative
position; then merge according to the lock states.  Returns the new
state, whether a snap happened, and the snapped group id. -/
def pairStep (cellW cellH threshold : ℚ) (st : List LPiece) (i j : ℕ) :
    List LPiece × Bool × Option ℕ :=
  match st.get? i, st.get? j with
  | some a, some b =>
    match a.x, a.y, b.x, b.y with
    | some ax, some ay, some bx, some bq =>
      if a.groupId = b.groupId then (st, false, none)
      else if ((b.row : ℤ) - (a.row : ℤ)).natAbs + ((b.col : ℤ) - (a.col : ℤ)).natAbs ≠ 1 then
        (st, false, none)
      else if distLt (bx - (ax + (((b.col : ℤ) - (a.col : ℤ) : ℤ) : ℚ) * cellW))
          (bq - (ay + (((b.row : ℤ) - (a.row : ℤ) : ℤ) : ℚ) * cellH)) threshold then
        if lockedGroup st a.groupId && lockedGroup st b.groupId then
          (st.map (mergeIdPiece b.groupId a.groupId), true, some a.groupId)
        else if lockedGroup st b.groupId && !(lockedGroup st a.groupId) then
          (st.map (joinLockPiece a.groupId b.groupId
            ((bx - (((b.col : ℤ) - (a.col : ℤ) : ℤ) : ℚ) * cellW) - ax)
            ((bq - (((b.row : ℤ) - (a.row : ℤ) : ℤ) : ℚ) * cellH) - ay)),
           true, some b.groupId)
        else
          (st.map (joinPiece b.groupId a.groupId
            ((ax + (((b.col : ℤ) - (a.col : ℤ) : ℤ) : ℚ) * cellW) - bx)
            ((ay + (((b.row : ℤ) - (a.row : ℤ) : ℤ) : ℚ) * cellH) - bq)
            (lockedGroup st a.groupId)),
           true, some a.groupId)
      else (st, false, none)
    | _, _, _, _ => (st, false, none)
  | _, _ => (st, false, none)

/-- Inner `for j` loop of the scan: `n` iterations starting at `j`. -/
def scanJ (cellW cellH threshold : ℚ) : List LPiece → ℕ → ℕ → ℕ → List LPiece × Bool × Option ℕ
  | st, _, _, 0 => (st, false, none)
  | st, i, j, n + 1 =>
    let r1 := pairStep cellW cellH threshold st i j
    let r2 := scanJ cellW cellH threshold r1.1 i (j + 1) n
    (r2.1, r1.2.1 || r2.2.1, (r2.2.2).orElse fun _ => r1.2.2)

/-- Outer `for i` loop: scans all pairs `i < j < len`. -/
def scanI (cellW cellH threshold : ℚ) (len : ℕ) :
    List LPiece → ℕ → ℕ → List LPiece × Bool × Option ℕ
  | st, _, 0 => (st, false, none)
  | st, i, n + 1 =>
    let r1 := scanJ cellW cellH threshold st i (i + 1) (len - (i + 1))
    let r2 := scanI cellW cellH threshold len r1.1 (i + 1) n
    (r2.1, r1.2.1 || r2.2.1, (r2.2.2).orElse fun _ => r1.2.2)

/-- The `while (changed)` loop of `trySnap`.  A changed pass performs at
least one merge, every merge strictly decreases the number of distinct
group ids, and there are at most `len` of them, so `len + 1` rounds of
fuel always reach the fixpoint the source loop reaches. -/
def snapLoop (cellW cellH threshold : ℚ) (len : ℕ) :
    ℕ → List LPiece → Bool → Option ℕ → List LPiece × Bool × Option ℕ
  | 0, st, sn, gid => (st, sn, gid)
  | fuel + 1, st, sn, gid =>
    let r := scanI cellW cellH threshold len st 0 len
    if r.2.1 then
      snapLoop cellW cellH threshold len fuel r.1 true ((r.2.2).orElse fun _ => gid)
    else (r.1, sn, gid)

/-- `trySnap(pieces)` of `src/lib/puzzle.ts` lines 260-351. -/
def trySnapL (pieces : List LPiece) : List LPiece × Bool × Option ℕ :=
  if pieces.length < 2 then (pieces, false, none)
  else
    match pieces.head? with
    | none => (pieces, false, none)
    | some sample =>
      let cellW := sample.displayWidth - 2 * sample.offsetX
      let cellH := sample.displayHeight - 2 * sample.offsetY
      let threshold := max 8 (min cellW cellH * (10/100))
      snapLoop cellW cellH threshold pieces.length (pieces.length + 1) pieces false none

/-- Border test of `trySnapToGuide`: `row === 0`, `row === rows - 1`,
`col === 0` or `col === cols - 1` (JS arithmetic, embedded in `ℤ`). -/
def isEdgePiece (p : LPiece) (cols rows : ℕ) : Bool :=
  decide ((p.row : ℤ) = 0 ∨ (p.row : ℤ) = (rows : ℤ) - 1 ∨
    (p.col : ℤ) = 0 ∨ (p.col : ℤ) = (cols : ℤ) - 1)

/-- Distinct group ids in first-appearance order: the iteration order of
the `Map` built by `trySnapToGuide`. -/
def distinctGids (st : List LPiece) : List ℕ :=
  st.foldl (fun acc p => if acc.contains p.groupId then acc else acc ++ [p.groupId]) []

/-- First member of a group within threshold of its correct absolute
position against the guide; returns the shift to apply. -/
def findGuideShift (groupPieces : List LPiece) (cellW cellH offX offY threshold : ℚ) :
    Option (ℚ × ℚ) :=
  groupPieces.findSome? fun p =>
    match p.x, p.y with
    | some px, some py =>
      let correctX := PUZZLE_ORIGIN_X - offX + (p.col : ℚ) * cellW
      let correctY := PUZZLE_ORIGIN_Y - offY + (p.row : ℚ) * cellH
      if distLt (px - correctX) (py - correctY) threshold then
        some (correctX - px, correctY - py)
      else none
    | _, _ => none

/-- The translation-and-lock loop of a guide snap. -/
def guideLockPiece (gid : ℕ) (sx sy : ℚ) (p : LPiece) : LPiece :=
  if p.groupId = gid then
    { p with x := p.x.map (· + sx), y := p.y.map (· + sy), locked := true }
  else p

/-- Processing of one group by `trySnapToGuide` (`src/lib/puzzle.ts`
lines 376-409): skip the group when its first member is locked or when it
holds no border piece; otherwise snap-and-lock the whole group as soon as
one member is within threshold of its correct guide position. -/
def guideGroupStep (cols rows : ℕ) (cellW cellH offX offY threshold : ℚ)
    (st : List LPiece) (gid : ℕ) : List LPiece × Bool :=
  match (st.filter fun p => decide (p.groupId = gid)).head? with
  | none => (st, false)
  | some first =>
    if first.locked then (st, false)
    else if !((st.filter fun p => decide (p.groupId = gid)).any
        fun gp => isEdgePiece gp cols rows) then (st, false)
    else
      match findGuideShift (st.filter fun p => decide (p.groupId = gid))
          cellW cellH offX offY threshold with
      | none => (st, false)
      | some (shiftX, shiftY) => (st.map (guideLockPiece gid shiftX shiftY), true)

/-- Accumulator update of the group loop of `trySnapToGuide`: new state,
accumulated `snapped`, and last snapped group id. -/
def guideFoldStep (cols rows : ℕ) (cellW cellH offX offY threshold : ℚ)
    (acc : List LPiece × Bool × Option ℕ) (gid : ℕ) : List LPiece × Bool × Option ℕ :=
  ((guideGroupStep cols rows cellW cellH offX offY threshold acc.1 gid).1,
   acc.2.1 || (guideGroupStep cols rows cellW cellH offX offY threshold acc.1 gid).2,
   if (guideGroupStep cols rows cellW cellH offX offY threshold acc.1 gid).2 then some gid
   else acc.2.2)

/-- `trySnapToGuide(pieces, cols, rows)` of `src/lib/puzzle.ts` lines
355-412: cell size and threshold from the first piece, then one pass over
the groups in first-appearance order. -/
def trySnapToGuideL (pieces : List LPiece) (cols rows : ℕ) : List LPiece × Bool × Option ℕ :=
  match pieces.head? with
  | none => (pieces, false, none)
  | some sample =>
    (distinctGids pieces).foldl
      (guideFoldStep cols rows
        (sample.displayWidth - 2 * sample.offsetX)
        (sample.displayHeight - 2 * sample.offsetY)
        sample.offsetX sample.offsetY
        (max 8 (min (sample.displayWidth - 2 * sample.offsetX)
          (sample.displayHeight - 2 * sample.offsetY) * (10/100))))
      (pieces, false, none)

/-- The guarded drag of the list engine: `handlePointerDown` of
`PuzzleBoard.tsx` refuses the drag when any piece of the group is locked,
and `updateGroupPosition` of `PuzzleGame.tsx` translates every on-board
member of the group. -/
def moveGroupAttempt (pieces : List LPiece) (gid : ℕ) (dx dy : ℚ) : List LPiece :=
  if pieces.any (fun p => decide (p.groupId = gid) && p.locked) then pieces
  else
    pieces.map fun p =>
      match p.x, p.y with
      | some px, some py =>
        if p.groupId = gid then { p with x := some (px + dx), y := some (py + dy) } else p
      | _, _ => p

/-- A serialized piece: every `PuzzlePiece` field except `imageDataUrl`
(`serializePieces` strips it); `locked` is optional because
`deserializePieces` tolerates saves that predate the field. -/
structure SPiece where
  id : ℕ
  row : ℕ
  col : ℕ
  displayWidth : ℚ
  displayHeight : ℚ
  offsetX : ℚ
  offsetY : ℚ
  selected : Bool
  x : Option ℚ
  y : Option ℚ
  groupId : ℕ
  locked : Option Bool
deriving DecidableEq, Repr

/-- `serializePieces(pieces)` of `src/lib/puzzle.ts`. -/
def serializePieces (ps : List LPiece) : List SPiece :=
  ps.map fun p =>
    { id := p.id, row := p.row, col := p.col
    , displayWidth := p.displayWidth, displayHeight := p.displayHeight
    , offsetX := p.offsetX, offsetY := p.offsetY, selected := p.selected
    , x := p.x, y := p.y, groupId := p.groupId, locked := some p.locked }

/-- `deserializePieces(saved, allPieces)` of `src/lib/puzzle.ts`: restore
`imageDataUrl` from the full piece list (the JS `Map` keeps the last
entry per id, hence the reversed search) and default `locked` to
`false`. -/
def deserializePieces (saved : List SPiece) (allPieces : List LPiece) : List LPiece :=
  saved.map fun s =>
    { id := s.id, row := s.row, col := s.col
    , imageDataUrl :=
        ((allPieces.reverse.find? fun p => decide (p.id = s.id)).map
          fun p => p.imageDataUrl).getD ""
    , displayWidth := s.displayWidth, displayHeight := s.displayHeight
    , offsetX := s.offsetX, offsetY := s.offsetY, selected := s.selected
    , x := s.x, y := s.y, groupId := s.groupId, locked := s.locked.getD false }

/-- One operation of the list-engine core. -/
inductive LStep (cols rows : ℕ) : List LPiece → List LPiece → Prop where
  | snap (st : List LPiece) : LStep cols rows st (trySnapL st).1
  | guide (st : List LPiece) : LStep cols rows st (trySnapToGuideL st cols rows).1
  | move (st : List LPiece) (gid : ℕ) (dx dy : ℚ) :
      LStep cols rows st (moveGroupAttempt st gid dx dy)

/-- Reachability by any sequence of core operations. -/
def LReach (cols rows : ℕ) : List LPiece → List LPiece → Prop :=
  Relation.ReflTransGen (LStep cols rows)

/-- The locked flag is uniform within every group. -/
def LockedUniform (st : List LPiece) : Prop :=
  ∀ p ∈ st, ∀ q ∈ st, p.groupId = q.groupId → p.locked = q.locked

theorem lockedGroup_true_iff {st : List LPiece} {gid : ℕ} :
    lockedGroup st gid = true ↔ ∃ p ∈ st, p.groupId = gid ∧ p.locked = true := by
  simp [lockedGroup, List.any_eq_true]

theorem lockedGroup_false_all {st : List LPiece} {gid : ℕ} (h : lockedGroup st gid = false) :
    ∀ p ∈ st, p.groupId = gid → p.locked = false := by
  intro p hp hg
  cases hlv : p.locked
  · rfl
  · have : lockedGroup st gid = true := lockedGroup_true_iff.mpr ⟨p, hp, hg, hlv⟩
    rw [this] at h
    cases h

theorem lockedGroup_true_all {st : List LPiece} {gid : ℕ}
    (hu : LockedUniform st) (h : lockedGroup st gid = true) :
    ∀ p ∈ st, p.groupId = gid → p.locked = true := by
  obtain ⟨w, hw, hwg, hwl⟩ := lockedGroup_true_iff.mp h
  intro p hp hg
  have heq := hu p hp w hw (by rw [hg, hwg])
  rw [heq, hwl]

/-- Pointwise preservation of locked pieces: position, lock flag and
identity survive one transition. -/
def FreezeStep (s t : List LPiece) : Prop :=
  ∀ k p, s.get? k = some p → p.locked = true →
    ∃ q, t.get? k = some q ∧ q.locked = true ∧ q.x = p.x ∧ q.y = p.y ∧ q.id = p.id

theorem freezeStep_refl (s : List LPiece) : FreezeStep s s :=
  fun _ p h hl => ⟨p, h, hl, rfl, rfl, rfl⟩

theorem freezeStep_trans {a b c : List LPiece}
    (h1 : FreezeStep a b) (h2 : FreezeStep b c) : FreezeStep a c := by
  intro k p h hl
  obtain ⟨q, hq, hql, hqx, hqy, hqid⟩ := h1 k p h hl
  obtain ⟨r, hr, hrl, hrx, hry, hrid⟩ := h2 k q hq hql
  exact ⟨r, hr, hrl, by rw [hrx, hqx], by rw [hry, hqy], by rw [hrid, hqid]⟩

theorem freeze_map {st : List LPiece} {f : LPiece → LPiece}
    (hf : ∀ p ∈ st, p.locked = true →
      (f p).locked = true ∧ (f p).x = p.x ∧ (f p).y = p.y ∧ (f p).id = p.id) :
    FreezeStep st (st.map f) := by
  intro k p hk hl
  have hmem : p ∈ st := List.get?_mem hk
  obtain ⟨h1, h2, h3, h4⟩ := hf p hmem hl
  exact ⟨f p, by rw [List.get?_map, hk]; rfl, h1, h2, h3, h4⟩

theorem mergeIdPiece_fields (f t : ℕ) (p : LPiece) :
    (mergeIdPiece f t p).locked = p.locked ∧ (mergeIdPiece f t p).x = p.x ∧
      (mergeIdPiece f t p).y = p.y ∧ (mergeIdPiece f t p).id = p.id ∧
      (mergeIdPiece f t p).groupId = (if p.groupId = f then t else p.groupId) := by
  unfold mergeIdPiece
  by_cases h : p.groupId = f <;> simp [h]

theorem joinLockPiece_fields (f t : ℕ) (sx sy : ℚ) (p : LPiece) :
    ((joinLockPiece f t sx sy p).groupId = (if p.groupId = f then t else p.groupId)) ∧
      (p.groupId ≠ f → joinLockPiece f t sx sy p = p) ∧
      (p.groupId = f → (joinLockPiece f t sx sy p).locked = true) := by
  unfold joinLockPiece
  by_cases h : p.groupId = f <;> simp [h]

theorem joinPiece_fields (f t : ℕ) (sx sy : ℚ) (aL : Bool) (p : LPiece) :
    ((joinPiece f t sx sy aL p).groupId = (if p.groupId = f then t else p.groupId)) ∧
      (p.groupId ≠ f → joinPiece f t sx sy aL p = p) ∧
      (p.groupId = f →
        (joinPiece f t sx sy aL p).locked = (if aL = true then true else p.locked)) := by
  unfold joinPiece
  by_cases h : p.groupId = f <;> simp [h]

/-- Every invocation of the pair-scan body either leaves the state
unchanged or performs exactly one of the three merge branches. -/
theorem pairStep_eq (cw ch th : ℚ) (st : List LPiece) (i j : ℕ) :
    (pairStep cw ch th st i j).1 = st ∨
    ∃ a b, st.get? i = some a ∧ st.get? j = some b ∧ a.groupId ≠ b.groupId ∧
      ((lockedGroup st a.groupId = true ∧ lockedGroup st b.groupId = true ∧
        (pairStep cw ch th st i j).1 = st.map (mergeIdPiece b.groupId a.groupId)) ∨
       (lockedGroup st b.groupId = true ∧ lockedGroup st a.groupId = false ∧
        ∃ sx sy, (pairStep cw ch th st i j).1
          = st.map (joinLockPiece a.groupId b.groupId sx sy)) ∨
       (lockedGroup st b.groupId = false ∧
        ∃ sx sy, (pairStep cw ch th st i j).1
          = st.map (joinPiece b.groupId a.groupId sx sy (lockedGroup st a.groupId)))) := by
  unfold pairStep
  split
  next a b hA hB =>
    split
    next ax ay bx bq hax hay hbx hby =>
      by_cases hg : a.groupId = b.groupId
      · left; rw [if_pos hg]
      · rw [if_neg hg]
        by_cases hadj : ((b.row : ℤ) - (a.row : ℤ)).natAbs
            + ((b.col : ℤ) - (a.col : ℤ)).natAbs ≠ 1
        · left; rw [if_pos hadj]
        · rw [if_neg hadj]
          by_cases hd : distLt (bx - (ax + (((b.col : ℤ) - (a.col : ℤ) : ℤ) : ℚ) * cw))
              (bq - (ay + (((b.row : ℤ) - (a.row : ℤ) : ℤ) : ℚ) * ch)) th = true
          · rw [if_pos hd]
            right
            refine ⟨a, b, hA, hB, hg, ?_⟩
            cases hal : lockedGroup st a.groupId <;> cases hbl : lockedGroup st b.groupId
            · right; right; exact ⟨rfl, _, _, rfl⟩
            · right; left; exact ⟨rfl, rfl, _, _, rfl⟩
            · right; right; exact ⟨rfl, _, _, rfl⟩
            · left; exact ⟨rfl, rfl, rfl⟩
          · left
            rw [if_neg (by simpa using hd)]
    next hother => left; rfl
  next hother => left; rfl

/-- A transition that keeps the uniform-lock invariant and freezes every
locked piece, both under the invariant. -/
def SafeStep (s t : List LPiece) : Prop :=
  (LockedUniform s → LockedUniform t) ∧ (LockedUniform s → FreezeStep s t)

theorem safeStep_refl (s : List LPiece) : SafeStep s s :=
  ⟨fun hu => hu, fun _ => freezeStep_refl s⟩

theorem safeStep_trans {a b c : List LPiece} (h1 : SafeStep a b) (h2 : SafeStep b c) :
    SafeStep a c :=
  ⟨fun hu => h2.1 (h1.1 hu), fun hu => freezeStep_trans (h1.2 hu) (h2.2 (h1.1 hu))⟩

theorem uniform_map_mergeId {st : List LPiece} {f t : ℕ} (hu : LockedUniform st)
    (hfl : ∀ p ∈ st, p.groupId = f → p.locked = true)
    (htl : ∀ p ∈ st, p.groupId = t → p.locked = true) :
    LockedUniform (st.map (mergeIdPiece f t)) := by
  intro p' hp' q' hq' hgid
  obtain ⟨p, hp, rfl⟩ := List.mem_map.mp hp'
  obtain ⟨q, hq, rfl⟩ := List.mem_map.mp hq'
  obtain ⟨hpl, -, -, -, hpg⟩ := mergeIdPiece_fields f t p
  obtain ⟨hql, -, -, -, hqg⟩ := mergeIdPiece_fields f t q
  rw [hpl, hql]
  rw [hpg, hqg] at hgid
  by_cases h1 : p.groupId = f <;> by_cases h2 : q.groupId = f
  · rw [hfl p hp h1, hfl q hq h2]
  · rw [if_pos h1, if_neg h2] at hgid
    rw [hfl p hp h1, htl q hq hgid.symm]
  · rw [if_neg h1, if_pos h2] at hgid
    rw [htl p hp hgid, hfl q hq h2]
  · rw [if_neg h1, if_neg h2] at hgid
    exact hu p hp q hq hgid

theorem uniform_map_joinLock {st : List LPiece} {f t : ℕ} {sx sy : ℚ} (hu : LockedUniform st)
    (htl : ∀ p ∈ st, p.groupId = t → p.locked = true) :
    LockedUniform (st.map (joinLockPiece f t sx sy)) := by
  intro p' hp' q' hq' hgid
  obtain ⟨p, hp, rfl⟩ := List.mem_map.mp hp'
  obtain ⟨q, hq, rfl⟩ := List.mem_map.mp hq'
  obtain ⟨hpg, hpe, hpl⟩ := joinLockPiece_fields f t sx sy p
  obtain ⟨hqg, hqe, hql⟩ := joinLockPiece_fields f t sx sy q
  rw [hpg, hqg] at hgid
  by_cases h1 : p.groupId = f <;> by_cases h2 : q.groupId = f
  · rw [hpl h1, hql h2]
  · rw [if_pos h1, if_neg h2] at hgid
    rw [hpl h1, hqe h2]
    exact (htl q hq hgid.symm).symm
  · rw [if_neg h1, if_pos h2] at hgid
    rw [hpe h1, hql h2]
    exact htl p hp hgid
  · rw [if_neg h1, if_neg h2] at hgid
    rw [hpe h1, hqe h2]
    exact hu p hp q hq hgid

theorem uniform_map_join_true {st : List LPiece} {f t : ℕ} {sx sy : ℚ} (hu : LockedUniform st)
    (htl : ∀ p ∈ st, p.groupId = t → p.locked = true) :
    LockedUniform (st.map (joinPiece f t sx sy true)) := by
  intro p' hp' q' hq' hgid
  obtain ⟨p, hp, rfl⟩ := List.mem_map.mp hp'
  obtain ⟨q, hq, rfl⟩ := List.mem_map.mp hq'
  obtain ⟨hpg, hpe, hpl⟩ := joinPiece_fields f t sx sy true p
  obtain ⟨hqg, hqe, hql⟩ := joinPiece_fields f t sx sy true q
  rw [hpg, hqg] at hgid
  by_cases h1 : p.groupId = f <;> by_cases h2 : q.groupId = f
  · rw [hpl h1, hql h2]
    simp
  · rw [if_pos h1, if_neg h2] at hgid
    rw [hpl h1, hqe h2]
    simp [htl q hq hgid.symm]
  · rw [if_neg h1, if_pos h2] at hgid
    rw [hpe h1, hql h2]
    simp [htl p hp hgid]
  · rw [if_neg h1, if_neg h2] at hgid
    rw [hpe h1, hqe h2]
    exact hu p hp q hq hgid

theorem uniform_map_join_false {st : List LPiece} {f t : ℕ} {sx sy : ℚ} (hu : LockedUniform st)
    (hfl : ∀ p ∈ st, p.groupId = f → p.locked = false)
    (htl : ∀ p ∈ st, p.groupId = t → p.locked = false) :
    LockedUniform (st.map (joinPiece f t sx sy false)) := by
  intro p' hp' q' hq' hgid
  obtain ⟨p, hp, rfl⟩ := List.mem_map.mp hp'
  obtain ⟨q, hq, rfl⟩ := List.mem_map.mp hq'
  obtain ⟨hpg, hpe, hpl⟩ := joinPiece_fields f t sx sy false p
  obtain ⟨hqg, hqe, hql⟩ := joinPiece_fields f t sx sy false q
  rw [hpg, hqg] at hgid
  by_cases h1 : p.groupId = f <;> by_cases h2 : q.groupId = f
  · rw [hpl h1, hql h2]
    simp [hfl p hp h1, hfl q hq h2]
  · rw [if_pos h1, if_neg h2] at hgid
    rw [hpl h1, hqe h2]
    simp [hfl p hp h1, htl q hq hgid.symm]
  · rw [if_neg h1, if_pos h2] at hgid
    rw [hpe h1, hql h2]
    simp [hfl q hq h2, htl p hp hgid]
  · rw [if_neg h1, if_neg h2] at hgid
    rw [hpe h1, hqe h2]
    exact hu p hp q hq hgid

theorem pairStep_safe (cw ch th : ℚ) (st : List LPiece) (i j : ℕ) :
    SafeStep st (pairStep cw ch th st i j).1 := by
  rcases pairStep_eq cw ch th st i j with h | ⟨a, b, hA, hB, hg, hbr⟩
  · rw [h]; exact safeStep_refl st
  rcases hbr with ⟨hal, hbl, heq⟩ | ⟨hbl, hal, sx, sy, heq⟩ | ⟨hbl, sx, sy, heq⟩
  · rw [heq]
    constructor
    · intro hu
      exact uniform_map_mergeId hu (lockedGroup_true_all hu hbl) (lockedGroup_true_all hu hal)
    · intro _
      apply freeze_map
      intro p _ hl
      obtain ⟨h1, h2, h3, h4, -⟩ := mergeIdPiece_fields b.groupId a.groupId p
      exact ⟨by rw [h1, hl], h2, h3, h4⟩
  · rw [heq]
    constructor
    · intro hu
      exact uniform_map_joinLock hu (lockedGroup_true_all hu hbl)
    · intro _
      apply freeze_map
      intro p hp hl
      have hne : p.groupId ≠ a.groupId := by
        intro hpe
        have := lockedGroup_false_all hal p hp hpe
        rw [hl] at this
        cases this
      obtain ⟨-, hpe, -⟩ := joinLockPiece_fields a.groupId b.groupId sx sy p
      rw [hpe hne]
      exact ⟨hl, rfl, rfl, rfl⟩
  · rw [heq]
    constructor
    · intro hu
      cases hal : lockedGroup st a.groupId
      · rw [hal] at heq
        exact uniform_map_join_false hu (lockedGroup_false_all hbl)
          (lockedGroup_false_all hal)
      · rw [hal] at heq
        exact uniform_map_join_true hu (lockedGroup_true_all hu hal)
    · intro _
      apply freeze_map
      intro p hp hl
      have hne : p.groupId ≠ b.groupId := by
        intro hpe
        have := lockedGroup_false_all hbl p hp hpe
        rw [hl] at this
        cases this
      obtain ⟨-, hpe, -⟩ := joinPiece_fields b.groupId a.groupId sx sy (lockedGroup st a.groupId) p
      rw [hpe hne]
      exact ⟨hl, rfl, rfl, rfl⟩

theorem scanJ_safe (cw ch th : ℚ) :
    ∀ (n : ℕ) (st : List LPiece) (i j : ℕ), SafeStep st (scanJ cw ch th st i j n).1 := by
  intro n
  induction n with
  | zero => intro st i j; exact safeStep_refl st
  | succ m ih =>
    intro st i j
    simp only [scanJ]
    exact safeStep_trans (pairStep_safe cw ch th st i j) (ih _ i (j + 1))

theorem scanI_safe (cw ch th : ℚ) (len : ℕ) :
    ∀ (n : ℕ) (st : List LPiece) (i : ℕ), SafeStep st (scanI cw ch th len st i n).1 := by
  intro n
  induction n with
  | zero => intro st i; exact safeStep_refl st
  | succ m ih =>
    intro st i
    simp only [scanI]
    exact safeStep_trans (scanJ_safe cw ch th _ st i (i + 1)) (ih _ (i + 1))

theorem snapLoop_safe (cw ch th : ℚ) (len : ℕ) :
    ∀ (fuel : ℕ) (st : List LPiece) (sn : Bool) (gid : Option ℕ),
      SafeStep st (snapLoop cw ch th len fuel st sn gid).1 := by
  intro fuel
  induction fuel with
  | zero => intro st sn gid; exact safeStep_refl st
  | succ m ih =>
    intro st sn gid
    simp only [snapLoop]
    by_cases hch : (scanI cw ch th len st 0 len).2.1 = true
    · rw [if_pos hch]
      exact safeStep_trans (scanI_safe cw ch th len len st 0) (ih _ _ _)
    · rw [if_neg hch]
      exact scanI_safe cw ch th len len st 0

theorem trySnapL_safe (pieces : List LPiece) : SafeStep pieces (trySnapL pieces).1 := by
  unfold trySnapL
  by_cases hlen : pieces.length < 2
  · rw [if_pos hlen]
    exact safeStep_refl pieces
  · rw [if_neg hlen]
    cases hh : pieces.head? with
    | none => exact safeStep_refl pieces
    | some sample => exact snapLoop_safe _ _ _ _ _ _ _ _

theorem guideLockPiece_fields (gid : ℕ) (sx sy : ℚ) (p : LPiece) :
    ((guideLockPiece gid sx sy p).groupId = p.groupId) ∧
      (p.groupId ≠ gid → guideLockPiece gid sx sy p = p) ∧
      (p.groupId = gid → (guideLockPiece gid sx sy p).locked = true) := by
  unfold guideLockPiece
  by_cases h : p.groupId = gid <;> simp [h]

theorem uniform_map_guideLock {st : List LPiece} {gid : ℕ} {sx sy : ℚ}
    (hu : LockedUniform st) :
    LockedUniform (st.map (guideLockPiece gid sx sy)) := by
  intro p' hp' q' hq' hgid
  obtain ⟨p, hp, rfl⟩ := List.mem_map.mp hp'
  obtain ⟨q, hq, rfl⟩ := List.mem_map.mp hq'
  obtain ⟨hpg, hpe, hpl⟩ := guideLockPiece_fields gid sx sy p
  obtain ⟨hqg, hqe, hql⟩ := guideLockPiece_fields gid sx sy q
  rw [hpg, hqg] at hgid
  by_cases h1 : p.groupId = gid <;> by_cases h2 : q.groupId = gid
  · rw [hpl h1, hql h2]
  · exact absurd (hgid ▸ h1) h2
  · exact absurd (hgid.symm ▸ h2) h1
  · rw [hpe h1, hqe h2]
    exact hu p hp q hq hgid

theorem guideGroupStep_safe (cols rows : ℕ) (cw ch ox oy th : ℚ)
    (st : List LPiece) (gid : ℕ) :
    SafeStep st (guideGroupStep cols rows cw ch ox oy th st gid).1 := by
  unfold guideGroupStep
  split
  next hh => exact safeStep_refl st
  next first hh =>
    by_cases hfl : first.locked = true
    · rw [if_pos hfl]
      exact safeStep_refl st
    · rw [if_neg hfl]
      by_cases hedge : (!((st.filter fun p => decide (p.groupId = gid)).any
          fun gp => isEdgePiece gp cols rows)) = true
      · rw [if_pos hedge]
        exact safeStep_refl st
      · rw [if_neg hedge]
        split
        next hshift => exact safeStep_refl st
        next sx sy hshift =>
          constructor
          · intro hu
            exact uniform_map_guideLock hu
          · intro hu
            apply freeze_map
            intro p hp hl
            have hfirst : first ∈ st.filter fun p => decide (p.groupId = gid) :=
              List.mem_of_mem_head? hh
            have hne : p.groupId ≠ gid := by
              intro hpe
              have hfmem := List.mem_filter.mp hfirst
              have hfg : first.groupId = gid := by simpa using hfmem.2
              have heq := hu first hfmem.1 p hp (by rw [hfg, hpe])
              rw [hl] at heq
              exact hfl heq
            obtain ⟨-, hpe, -⟩ := guideLockPiece_fields gid sx sy p
            rw [hpe hne]
            exact ⟨hl, rfl, rfl, rfl⟩

theorem foldGuide_safe (cols rows : ℕ) (cw ch ox oy th : ℚ) :
    ∀ (gids : List ℕ) (acc : List LPiece × Bool × Option ℕ),
      SafeStep acc.1 ((gids.foldl (guideFoldStep cols rows cw ch ox oy th) acc)).1 := by
  intro gids
  induction gids with
  | nil => intro acc; exact safeStep_refl acc.1
  | cons g rest ih =>
    intro acc
    rw [List.foldl_cons]
    exact safeStep_trans (guideGroupStep_safe cols rows cw ch ox oy th acc.1 g)
      (ih (guideFoldStep cols rows cw ch ox oy th acc g))

theorem trySnapToGuideL_safe (pieces : List LPiece) (cols rows : ℕ) :
    SafeStep pieces (trySnapToGuideL pieces cols rows).1 := by
  unfold trySnapToGuideL
  cases hh : pieces.head? with
  | none => exact safeStep_refl pieces
  | some sample =>
    exact foldGuide_safe cols rows _ _ _ _ _ (distinctGids pieces) (pieces, false, none)

theorem moveGroupAttempt_safe (pieces : List LPiece) (gid : ℕ) (dx dy : ℚ) :
    SafeStep pieces (moveGroupAttempt pieces gid dx dy) := by
  unfold moveGroupAttempt
  by_cases hany : (pieces.any fun p => decide (p.groupId = gid) && p.locked) = true
  · rw [if_pos hany]
    exact safeStep_refl pieces
  · rw [if_neg hany]
    have hfields : ∀ p : LPiece,
        ((match p.x, p.y with
          | some px, some py =>
            if p.groupId = gid then { p with x := some (px + dx), y := some (py + dy) } else p
          | _, _ => p) : LPiece).locked = p.locked ∧
        ((match p.x, p.y with
          | some px, some py =>
            if p.groupId = gid then { p with x := some (px + dx), y := some (py + dy) } else p
          | _, _ => p) : LPiece).groupId = p.groupId ∧
        ((match p.x, p.y with
          | some px, some py =>
            if p.groupId = gid then { p with x := some (px + dx), y := some (py + dy) } else p
          | _, _ => p) : LPiece).id = p.id := by
      intro p
      cases hx : p.x <;> cases hy : p.y <;> simp
      by_cases hg : p.groupId = gid <;> simp [hg]
    constructor
    · intro hu p' hp' q' hq' hgid
      obtain ⟨p, hp, rfl⟩ := List.mem_map.mp hp'
      obtain ⟨q, hq, rfl⟩ := List.mem_map.mp hq'
      obtain ⟨hpl, hpg, -⟩ := hfields p
      obtain ⟨hql, hqg, -⟩ := hfields q
      rw [hpl, hql]
      rw [hpg, hqg] at hgid
      exact hu p hp q hq hgid
    · intro _
      apply freeze_map
      intro p hp hl
      have hne : p.groupId ≠ gid := by
        intro hpe
        apply hany
        rw [List.any_eq_true]
        exact ⟨p, hp, by simp [hpe, hl]⟩
      have hfp : (match p.x, p.y with
          | some px, some py =>
            if p.groupId = gid then { p with x := some (px + dx), y := some (py + dy) } else p
          | _, _ => p) = p := by
        cases p.x <;> cases p.y <;> simp [hne]
      rw [hfp]
      exact ⟨hl, rfl, rfl, rfl⟩

/-- Every core operation is a safe step. -/
theorem lstep_safe {cols rows : ℕ} {s t : List LPiece} (h : LStep cols rows s t) :
    SafeStep s t := by
  cases h with
  | snap => exact trySnapL_safe s
  | guide => exact trySnapToGuideL_safe s cols rows
  | move gid dx dy => exact moveGroupAttempt_safe s gid dx dy

/-- Reachability preserves the uniform-lock invariant and freezes every
locked piece. -/
theorem lreach_safe {cols rows : ℕ} {s t : List LPiece} (h : LReach cols rows s t) :
    SafeStep s t := by
  induction h with
  | refl => exact safeStep_refl s
  | tail _ hstep ih => exact safeStep_trans ih (lstep_safe hstep)

/-- C5: lock monotonicity.  In every state whose locked flags are uniform
per group (the representation invariant of the engine, cf. the spec's
per-root lock flag), once all pieces of a group are locked, any state
reachable through the core operations (neighbour snap, guide snap,
guarded drag move) keeps those pieces locked at unchanged coordinates;
and an attempted drag move of the locked group is a no-op. -/
theorem lock_monotonicity (cols rows : ℕ) (s t : List LPiece) (gid : ℕ)
    (hu : LockedUniform s) (hr : LReach cols rows s t)
    (hlock : ∀ p ∈ s, p.groupId = gid → p.locked = true) :
    (∀ k p, s.get? k = some p → p.groupId = gid →
      ∃ q, t.get? k = some q ∧ q.locked = true ∧ q.x = p.x ∧ q.y = p.y ∧ q.id = p.id)
    ∧ (∀ dx dy, (∃ p ∈ s, p.groupId = gid) → moveGroupAttempt s gid dx dy = s) := by
  constructor
  · intro k p hk hg
    have hmem : p ∈ s := List.get?_mem hk
    exact (lreach_safe hr).2 hu k p hk (hlock p hmem hg)
  · intro dx dy hex
    obtain ⟨p, hp, hg⟩ := hex
    have hany : (s.any fun p => decide (p.groupId = gid) && p.locked) = true :=
      List.any_eq_true.mpr ⟨p, hp, by simp [hg, hlock p hp hg]⟩
    unfold moveGroupAttempt
    rw [if_pos hany]

/-- A locked single-piece group used as concrete data. -/
def c5Piece : LPiece :=
  { id := 0, row := 0, col := 0, imageDataUrl := "", displayWidth := 120, displayHeight := 120
  , offsetX := 10, offsetY := 10, selected := false, x := some 800, y := some 800
  , groupId := 3, locked := true }

/-- One-piece state for the lock-monotonicity witness. -/
def c5St : List LPiece := [c5Piece]

/-- Witness for C5 at a concrete one-piece locked state: the guarded drag
refuses to move the locked group. -/
theorem lock_monotonicity_witness : moveGroupAttempt c5St 3 5 7 = c5St :=
  (lock_monotonicity 4 4 c5St c5St 3 (by unfold LockedUniform; decide)
    Relation.ReflTransGen.refl (by decide)).2 5 7 ⟨c5Piece, by decide, by decide⟩

theorem map_congr_mem {α β : Type} {l : List α} {f g : α → β}
    (h : ∀ a ∈ l, f a = g a) : l.map f = l.map g := by
  induction l with
  | nil => rfl
  | cons a tl ih =>
    simp only [List.map_cons, h a (by simp)]
    rw [ih fun x hx => h x (by simp [hx])]

/-- C4: the both-locked merge of `trySnap` is a pure identity union —
when the scan body fires on two within-tolerance adjacent pieces of
different groups that both belong to locked groups, the step only
rewrites group ids (B's group takes A's id); the x, y and locked fields
of every piece are exactly unchanged, and the step reports a snap. -/
theorem trySnap_locked_merge_identity (cw ch th : ℚ) (st : List LPiece) (i j : ℕ)
    (a b : LPiece) (ax ay bx bq : ℚ)
    (hA : st.get? i = some a) (hB : st.get? j = some b)
    (hax : a.x = some ax) (hay : a.y = some ay) (hbx : b.x = some bx) (hby : b.y = some bq)
    (hg : a.groupId ≠ b.groupId)
    (hadj : ((b.row : ℤ) - (a.row : ℤ)).natAbs + ((b.col : ℤ) - (a.col : ℤ)).natAbs = 1)
    (hd : distLt (bx - (ax + (((b.col : ℤ) - (a.col : ℤ) : ℤ) : ℚ) * cw))
      (bq - (ay + (((b.row : ℤ) - (a.row : ℤ) : ℤ) : ℚ) * ch)) th = true)
    (hal : lockedGroup st a.groupId = true) (hbl : lockedGroup st b.groupId = true) :
    (pairStep cw ch th st i j).1.map (fun p => (p.x, p.y, p.locked))
        = st.map (fun p => (p.x, p.y, p.locked))
    ∧ (pairStep cw ch th st i j).1.map (fun p => p.groupId)
        = st.map (fun p => if p.groupId = b.groupId then a.groupId else p.groupId)
    ∧ (pairStep cw ch th st i j).2.1 = true := by
  have hstep : pairStep cw ch th st i j
      = (st.map (mergeIdPiece b.groupId a.groupId), true, some a.groupId) := by
    simp only [pairStep, hA, hB, hax, hay, hbx, hby]
    rw [if_neg hg, if_neg (by simp [hadj]), if_pos hd, if_pos (by rw [hal, hbl]; rfl)]
  rw [hstep]
  refine ⟨?_, ?_, rfl⟩
  · rw [List.map_map]
    apply map_congr_mem
    intro p _
    obtain ⟨h1, h2, h3, -, -⟩ := mergeIdPiece_fields b.groupId a.groupId p
    simp [Function.comp, h1, h2, h3]
  · rw [List.map_map]
    apply map_congr_mem
    intro p _
    obtain ⟨-, -, -, -, h5⟩ := mergeIdPiece_fields b.groupId a.groupId p
    simp [Function.comp, h5]

/-- Two adjacent locked pieces in different groups, within threshold. -/
def c4PieceA : LPiece :=
  { id := 0, row := 0, col := 0, imageDataUrl := "", displayWidth := 120, displayHeight := 120
  , offsetX := 10, offsetY := 10, selected := false, x := some 100, y := some 100
  , groupId := 0, locked := true }

/-- Right-hand neighbour of `c4PieceA`, slightly offset. -/
def c4PieceB : LPiece :=
  { id := 1, row := 0, col := 1, imageDataUrl := "", displayWidth := 120, displayHeight := 120
  , offsetX := 10, offsetY := 10, selected := false, x := some 205, y := some 103
  , groupId := 1, locked := true }

/-- Two-piece state for the locked-merge witness. -/
def c4St : List LPiece := [c4PieceA, c4PieceB]

/-- Witness for C4 on a concrete two-locked-piece state. -/
theorem trySnap_locked_merge_identity_witness :
    (pairStep 100 100 10 c4St 0 1).1.map (fun p => (p.x, p.y, p.locked))
        = c4St.map (fun p => (p.x, p.y, p.locked))
    ∧ (pairStep 100 100 10 c4St 0 1).1.map (fun p => p.groupId)
        = c4St.map (fun p => if p.groupId = c4PieceB.groupId then c4PieceA.groupId
            else p.groupId)
    ∧ (pairStep 100 100 10 c4St 0 1).2.1 = true :=
  trySnap_locked_merge_identity 100 100 10 c4St 0 1 c4PieceA c4PieceB 100 100 205 103
    (by decide) (by decide) (by decide) (by decide) (by decide) (by decide)
    (by decide) (by decide) (by decide) (by decide) (by decide)

/-- C9: `trySnap` and `trySnapToGuide` preserve the invariant that the
locked flag is uniform within every group; and whenever the scan body
merges a non-locked group into a group containing a locked member, every
incoming piece is marked locked as part of the merge — with no per-piece
comparison against any solved position. -/
theorem locked_uniform_invariant (st : List LPiece) (cols rows : ℕ)
    (hu : LockedUniform st) :
    LockedUniform (trySnapL st).1
    ∧ LockedUniform (trySnapToGuideL st cols rows).1
    ∧ (∀ cw ch th i j (a b : LPiece) (ax ay bx bq : ℚ),
        st.get? i = some a → st.get? j = some b →
        a.x = some ax → a.y = some ay → b.x = some bx → b.y = some bq →
        a.groupId ≠ b.groupId →
        ((b.row : ℤ) - (a.row : ℤ)).natAbs + ((b.col : ℤ) - (a.col : ℤ)).natAbs = 1 →
        distLt (bx - (ax + (((b.col : ℤ) - (a.col : ℤ) : ℤ) : ℚ) * cw))
          (bq - (ay + (((b.row : ℤ) - (a.row : ℤ) : ℤ) : ℚ) * ch)) th = true →
        lockedGroup st b.groupId = true → lockedGroup st a.groupId = false →
        ∀ k p, st.get? k = some p → p.groupId = a.groupId →
          ∃ q, (pairStep cw ch th st i j).1.get? k = some q
            ∧ q.locked = true ∧ q.groupId = b.groupId) := by
  refine ⟨(trySnapL_safe st).1 hu, (trySnapToGuideL_safe st cols rows).1 hu, ?_⟩
  intro cw ch th i j a b ax ay bx bq hA hB hax hay hbx hby hg hadj hd hbl hal k p hk hpg
  have hstep : pairStep cw ch th st i j
      = (st.map (joinLockPiece a.groupId b.groupId
          ((bx - (((b.col : ℤ) - (a.col : ℤ) : ℤ) : ℚ) * cw) - ax)
          ((bq - (((b.row : ℤ) - (a.row : ℤ) : ℤ) : ℚ) * ch) - ay)),
         true, some b.groupId) := by
    simp only [pairStep, hA, hB, hax, hay, hbx, hby]
    rw [if_neg hg, if_neg (by simp [hadj]), if_pos hd, if_neg (by rw [hal, hbl]; simp),
      if_pos (by rw [hal, hbl]; rfl)]
  rw [hstep]
  refine ⟨joinLockPiece a.groupId b.groupId
      ((bx - (((b.col : ℤ) - (a.col : ℤ) : ℤ) : ℚ) * cw) - ax)
      ((bq - (((b.row : ℤ) - (a.row : ℤ) : ℤ) : ℚ) * ch) - ay) p, ?_, ?_, ?_⟩
  · rw [List.get?_map, hk]
    rfl
  · exact (joinLockPiece_fields _ _ _ _ p).2.2 hpg
  · rw [(joinLockPiece_fields _ _ _ _ p).1, if_pos hpg]

/-- State for the C9 witness: an unlocked singleton next to a locked
singleton, within snapping distance. -/
def c9St : List LPiece :=
  [ { id := 0, row := 0, col := 0, imageDataUrl := "", displayWidth := 120
    , displayHeight := 120, offsetX := 10, offsetY := 10, selected := false
    , x := some 100, y := some 100, groupId := 0, locked := false }
  , { id := 1, row := 0, col := 1, imageDataUrl := "", displayWidth := 120
    , displayHeight := 120, offsetX := 10, offsetY := 10, selected := false
    , x := some 205, y := some 103, groupId := 1, locked := true } ]

/-- Witness for C9 on concrete data: uniformity survives `trySnap`, and
the piece merged into the locked neighbour's group comes out locked with
the locked group's id. -/
theorem locked_uniform_invariant_witness :
    LockedUniform (trySnapL c9St).1
    ∧ ((pairStep 100 100 10 c9St 0 1).1.get? 0).map (fun q => (q.locked, q.groupId))
        = some (true, 1) := by
  have h := locked_uniform_invariant c9St 2 1 (by unfold LockedUniform; decide)
  refine ⟨h.1, ?_⟩
  obtain ⟨q, hq, hql, hqg⟩ := h.2.2 100 100 10 0 1 (c9St.getD 0 c5Piece) (c9St.getD 1 c5Piece)
    100 100 205 103 (by decide) (by decide) (by decide) (by decide) (by decide) (by decide)
    (by decide) (by decide) (by decide) (by decide) (by decide) 0 (c9St.getD 0 c5Piece)
    (by decide) (by decide)
  rw [hq]
  simp only [Option.map]
  rw [hql, hqg]
  decide

/-- Pointwise relation between the original state and a state produced by
the guide-snap pass: grid coordinates, group ids and identities are
untouched everywhere, and the pieces of group `gid` also keep their
positions and lock flags. -/
def GuideInv (gid : ℕ) (orig s : List LPiece) : Prop :=
  s.length = orig.length ∧
  ∀ k p, orig.get? k = some p →
    ∃ q, s.get? k = some q ∧ q.row = p.row ∧ q.col = p.col ∧ q.groupId = p.groupId
      ∧ q.id = p.id ∧ (p.groupId = gid → q.x = p.x ∧ q.y = p.y ∧ q.locked = p.locked)

theorem guideInv_refl (gid : ℕ) (orig : List LPiece) : GuideInv gid orig orig :=
  ⟨rfl, fun _ p h => ⟨p, h, rfl, rfl, rfl, rfl, fun _ => ⟨rfl, rfl, rfl⟩⟩⟩

theorem guideLockPiece_immutable (gid : ℕ) (sx sy : ℚ) (p : LPiece) :
    (guideLockPiece gid sx sy p).row = p.row ∧ (guideLockPiece gid sx sy p).col = p.col ∧
      (guideLockPiece gid sx sy p).groupId = p.groupId ∧
      (guideLockPiece gid sx sy p).id = p.id := by
  unfold guideLockPiece
  by_cases h : p.groupId = gid <;> simp [h]

theorem isEdgePiece_congr {p q : LPiece} (cols rows : ℕ)
    (hr : q.row = p.row) (hc : q.col = p.col) :
    isEdgePiece q cols rows = isEdgePiece p cols rows := by
  unfold isEdgePiece
  rw [hr, hc]

theorem guideGroupStep_inv (cols rows : ℕ) (cw ch ox oy th : ℚ) (gid : ℕ)
    (orig s : List LPiece) (g : ℕ)
    (hint : ∀ p ∈ orig, p.groupId = gid → isEdgePiece p cols rows = false)
    (hinv : GuideInv gid orig s) :
    GuideInv gid orig (guideGroupStep cols rows cw ch ox oy th s g).1 := by
  unfold guideGroupStep
  split
  next hh => exact hinv
  next first hh =>
    by_cases hfl : first.locked = true
    · rw [if_pos hfl]; exact hinv
    · rw [if_neg hfl]
      by_cases hedge : (!((s.filter fun p => decide (p.groupId = g)).any
          fun gp => isEdgePiece gp cols rows)) = true
      · rw [if_pos hedge]; exact hinv
      · rw [if_neg hedge]
        split
        next hshift => exact hinv
        next sx sy hshift =>
          have hgne : g ≠ gid := by
            intro hge
            subst hge
            have hany : ((s.filter fun p => decide (p.groupId = g)).any
                fun gp => isEdgePiece gp cols rows) = true := by
              cases hv : ((s.filter fun p => decide (p.groupId = g)).any
                  fun gp => isEdgePiece gp cols rows)
              · rw [hv] at hedge
                exact absurd rfl hedge
              · rfl
            obtain ⟨q, hqmem, hqedge⟩ := List.any_eq_true.mp hany
            obtain ⟨hqs, hqg⟩ := List.mem_filter.mp hqmem
            have hqgid : q.groupId = g := by simpa using hqg
            obtain ⟨n, hn⟩ := List.mem_iff_get?.mp hqs
            have hlen : n < orig.length := by
              rw [← hinv.1]
              by_contra hge2
              rw [List.get?_eq_none.mpr (by omega)] at hn
              cases hn
            cases horig : orig.get? n with
            | none =>
              rw [List.get?_eq_none] at horig
              omega
            | some p0 =>
              obtain ⟨q0, hq0, hrow, hcol, hgid0, -, -⟩ := hinv.2 n p0 horig
              have hq0q : q0 = q := by
                rw [hn] at hq0
                exact (Option.some.inj hq0).symm
              have hp0g : p0.groupId = g := by
                rw [← hgid0, hq0q, hqgid]
              have hedge0 := hint p0 (List.get?_mem horig) hp0g
              rw [isEdgePiece_congr cols rows (hq0q ▸ hrow) (hq0q ▸ hcol), hedge0] at hqedge
              cases hqedge
          constructor
          · rw [List.length_map]
            exact hinv.1
          · intro k p hk
            obtain ⟨q, hq, hrow, hcol, hgid0, hid, hcond⟩ := hinv.2 k p hk
            refine ⟨guideLockPiece g sx sy q, by rw [List.get?_map, hq]; rfl, ?_⟩
            obtain ⟨hr, hc, hgi, hi⟩ := guideLockPiece_immutable g sx sy q
            refine ⟨by rw [hr, hrow], by rw [hc, hcol], by rw [hgi, hgid0], by rw [hi, hid], ?_⟩
            intro hpg
            have hqg : q.groupId ≠ g := by
              rw [hgid0, hpg]
              exact fun h => hgne h.symm
            obtain ⟨-, hpe, -⟩ := guideLockPiece_fields g sx sy q
            rw [hpe hqg]
            exact hcond hpg

theorem foldGuide_inv (cols rows : ℕ) (cw ch ox oy th : ℚ) (gid : ℕ) (orig : List LPiece)
    (hint : ∀ p ∈ orig, p.groupId = gid → isEdgePiece p cols rows = false) :
    ∀ (gids : List ℕ) (acc : List LPiece × Bool × Option ℕ),
      GuideInv gid orig acc.1 →
      GuideInv gid orig ((gids.foldl (guideFoldStep cols rows cw ch ox oy th) acc)).1 := by
  intro gids
  induction gids with
  | nil => intro acc h; exact h
  | cons a tl ih =>
    intro acc h
    rw [List.foldl_cons]
    exact ih _ (guideGroupStep_inv cols rows cw ch ox oy th gid orig acc.1 a hint h)

/-- C10: `trySnapToGuide` only ever snaps and locks groups containing at
least one border piece; a group consisting solely of interior pieces
keeps the position and lock flag of every member, no matter how close it
is to its correct absolute position. -/
theorem guide_interior_only (pieces : List LPiece) (cols rows : ℕ) (gid : ℕ)
    (hint : ∀ p ∈ pieces, p.groupId = gid → isEdgePiece p cols rows = false) :
    ∀ k p, pieces.get? k = some p → p.groupId = gid →
      ∃ q, (trySnapToGuideL pieces cols rows).1.get? k = some q
        ∧ q.x = p.x ∧ q.y = p.y ∧ q.locked = p.locked ∧ q.groupId = p.groupId
        ∧ q.id = p.id := by
  intro k p hk hpg
  unfold trySnapToGuideL
  cases hh : pieces.head? with
  | none => exact ⟨p, hk, rfl, rfl, rfl, rfl, rfl⟩
  | some sample =>
    have hinv := foldGuide_inv cols rows
      (sample.displayWidth - 2 * sample.offsetX) (sample.displayHeight - 2 * sample.offsetY)
      sample.offsetX sample.offsetY
      (max 8 (min (sample.displayWidth - 2 * sample.offsetX)
        (sample.displayHeight - 2 * sample.offsetY) * (10/100)))
      gid pieces hint (distinctGids pieces) (pieces, false, none) (guideInv_refl gid pieces)
    obtain ⟨q, hq, hrow, hcol, hgid0, hid, hcond⟩ := hinv.2 k p hk
    obtain ⟨hx, hy, hl⟩ := hcond hpg
    exact ⟨q, hq, hx, hy, hl, hgid0, hid⟩

/-- An interior piece of a 3-by-3 grid sitting exactly on its correct
guide position, yet unlocked. -/
def c10Piece : LPiece :=
  { id := 4, row := 1, col := 1, imageDataUrl := "", displayWidth := 120, displayHeight := 120
  , offsetX := 10, offsetY := 10, selected := false, x := some 890, y := some 890
  , groupId := 5, locked := false }

/-- One-piece interior-only state for the guide witness. -/
def c10St : List LPiece := [c10Piece]

/-- Witness for C10: the interior-only group is left untouched by the
guide snap even though it sits exactly on its correct position. -/
theorem guide_interior_only_witness :
    ((trySnapToGuideL c10St 3 3).1.get? 0).map (fun q => (q.x, q.y, q.locked))
      = some (some 890, some 890, false) := by
  obtain ⟨q, hq, hx, hy, hl, -, -⟩ :=
    guide_interior_only c10St 3 3 5 (by decide) 0 c10Piece (by decide) (by decide)
  rw [hq]
  simp only [Option.map]
  rw [hx, hy, hl]
  decide

/-- First piece of the save/restore board. -/
def c8P0 : PieceDef :=
  { col := 0, row := 0, edges := ⟨flatEdge, flatEdge, flatEdge, flatEdge⟩
  , solvedX := 0, solvedY := 0, x := 50, y := 20, width := 100, height := 100
  , isPlaced := false, isSelected := false, id := (0, 0), zIndex := 1 }

/-- Second piece of the save/restore board, in the same group as the
first. -/
def c8P1 : PieceDef :=
  { col := 1, row := 0, edges := ⟨flatEdge, flatEdge, flatEdge, flatEdge⟩
  , solvedX := 100, solvedY := 0, x := 150, y := 20, width := 100, height := 100
  , isPlaced := false, isSelected := false, id := (1, 0), zIndex := 2 }

/-- A 2-by-1 board whose two pieces have been snapped into one group. -/
def c8Board : CanvasBoard :=
  { boardX := 0, boardY := 0, boardW := 200, boardH := 100
  , pieces := [c8P0, c8P1]
  , groups := [((0, 0), (0, 0)), ((1, 0), (0, 0))]
  , tray := [] }

/-- C8 counterexample: the two pieces of `c8Board` share one group at
save time, but after saving and restoring onto a freshly generated layout
with the same seed and dimensions they are in different (singleton)
groups — the saved state carries no group ids and `buildBoard` resets the
partition. -/
theorem canvas_restore_drops_group_partition :
    lookupGroup c8Board.groups (0, 0) = lookupGroup c8Board.groups (1, 0)
    ∧ lookupGroup (buildBoardRestore 0 0 200 100 2 1 7 (canvasSave c8Board) []).groups (0, 0)
        ≠ lookupGroup (buildBoardRestore 0 0 200 100 2 1 7 (canvasSave c8Board) []).groups (1, 0) := by
  constructor
  · decide
  · decide

/-- C8 amended: the list-engine serialize/deserialize path preserves ids,
group ids, positions, lock flags and grid coordinates verbatim — hence
the same group partition; the canvas restore regenerates identical edge
geometry from the seed and resets every piece to a singleton group; and
the canvas save stores exact fractional coordinates, which reconstruct
the original positions whenever the board dimensions are nonzero. -/
theorem restore_roundtrip_amended :
    (∀ ps allPieces : List LPiece,
      (deserializePieces (serializePieces ps) allPieces).map
          (fun p => (p.id, p.groupId, p.x, p.y, p.locked, p.row, p.col))
        = ps.map fun p => (p.id, p.groupId, p.x, p.y, p.locked, p.row, p.col))
    ∧ (∀ (bX bY bW bH : ℚ) (cols rows seed : ℕ) (saved : List SavedPieceState)
        (trayIds : List PId),
        (buildBoardRestore bX bY bW bH cols rows seed saved trayIds).groups
          = (buildBoardRestore bX bY bW bH cols rows seed saved trayIds).pieces.map
              (fun p => (p.id, p.id))
        ∧ (buildBoardRestore bX bY bW bH cols rows seed saved trayIds).pieces.map
              (fun p => p.edges)
            = (generatePuzzle bW bH cols rows seed).pieces.map fun p => p.edges)
    ∧ (∀ b : CanvasBoard, b.boardW ≠ 0 → b.boardH ≠ 0 →
        ∀ p ∈ b.pieces, ∃ s ∈ canvasSave b, s.id = p.id
          ∧ b.boardX + s.fx * b.boardW = p.x ∧ b.boardY + s.fy * b.boardH = p.y
          ∧ s.isPlaced = p.isPlaced) := by
  refine ⟨?_, ?_, ?_⟩
  · intro ps allPieces
    unfold deserializePieces serializePieces
    rw [List.map_map, List.map_map]
    apply map_congr_mem
    intro p _
    rfl
  · intro bX bY bW bH cols rows seed saved trayIds
    constructor
    · rfl
    · simp only [buildBoardRestore]
      rw [List.map_map]
      apply map_congr_mem
      intro p _
      simp only [Function.comp]
      cases hf : saved.find? fun s => decide (s.id = p.id) with
      | none => rfl
      | some s =>
        by_cases hres : (decide (saved ≠ []) : Bool) = true
        · simp [hres]
        · simp [hres]
  · intro b hW hH p hp
    refine ⟨{ id := p.id, fx := (p.x - b.boardX) / b.boardW, fy := (p.y - b.boardY) / b.boardH
            , isPlaced := p.isPlaced, zIndex := p.zIndex }, ?_, rfl, ?_, ?_, rfl⟩
    · unfold canvasSave
      exact List.mem_map_of_mem _ hp
    · rw [div_mul_cancel₀ _ hW]
      ring
    · rw [div_mul_cancel₀ _ hH]
      ring

/-- Witness for the amended C8: the saved entry of the first piece of
`c8Board` reconstructs that piece's exact position. -/
theorem restore_roundtrip_amended_witness :
    ((canvasSave c8Board).any fun s =>
      decide (s.id = ((0, 0) : PId)) && decide (c8Board.boardX + s.fx * c8Board.boardW = 50)
        && decide (c8Board.boardY + s.fy * c8Board.boardH = 20)) = true := by
  obtain ⟨s, hs, hid, hx, hy, -⟩ := restore_roundtrip_amended.2.2 c8Board
    (by decide) (by decide) (c8Board.pieces.getD 0 c8P0) (by decide)
  rw [List.any_eq_true]
  refine ⟨s, hs, ?_⟩
  simp only [Bool.and_eq_true, decide_eq_true_eq]
  exact ⟨⟨by rw [hid]; decide, by rw [hx]; decide⟩, by rw [hy]; decide⟩

end PicturePuzzle
